import Mathlib

/-!
# Verification of the gcp-todoist-runner classification core

This file gives a shallow embedding of the pure classification and
inference engine of the repository (src/core/processing.py,
src/utils/validators.py, src/utils/frequency_labels.py, src/main.py)
and proves properties of it.

Modelling conventions:

* Python `str` values are Lean `String`s (sequences of Unicode code
  points, as in Python); positions and lengths count code points.
* A dictionary field whose value may be present, present-as-`None`, or
  absent is modelled as `Option (Option String)`: `none` = key absent,
  `some none` = key present with value `None`, `some (some s)` = key
  present with string value `s`.
* Python `datetime.date` is a record of year/month/day; its
  `toordinal`/`fromordinal` conversions are transcribed from CPython's
  `datetime` module (proleptic Gregorian, ordinal 1 = 0001-01-01).
* Python `datetime.datetime` adds wall-clock time fields and an optional
  fixed UTC offset in minutes (`tzinfo` is modelled as a fixed-offset
  timezone, which is what the comparisons in the source depend on).
* Functions that can raise an uncaught exception are modelled in
  `Except PyErr`; exceptions that the source catches are resolved inside
  the definitions, exactly where the corresponding `try`/`except` sits.
* Character-class predicates (`\s`, `\W`, `str.isalpha`, `str.lower`,
  `int()` digits) are modelled on the ASCII range plus the specific
  non-ASCII characters the source manipulates; Python additionally
  accepts some exotic Unicode categories there, which no claim depends
  on.
-/

/-! ## Python primitive helpers -/

/-- Python whitespace for `str.split()` / `str.strip()` / regex `\s`
(space, tab, newline, carriage return, form feed, vertical tab). -/
def pyIsSpace (c : Char) : Bool :=
  c.toNat = 32 || c.toNat = 9 || c.toNat = 10 || c.toNat = 13 || c.toNat = 11 || c.toNat = 12

/-- Python regex word character (`\w`): letters, digits, underscore.
The model covers ASCII plus the Latin-1 letters; the remaining Unicode
letter categories are outside the model. -/
def pyIsWordChar (c : Char) : Bool :=
  (48 ≤ c.toNat && c.toNat ≤ 57) || (65 ≤ c.toNat && c.toNat ≤ 90) ||
    (97 ≤ c.toNat && c.toNat ≤ 122) || c.toNat = 95 ||
    (0xC0 ≤ c.toNat && c.toNat ≤ 0xFF && c.toNat ≠ 0xD7 && c.toNat ≠ 0xF7) ||
    c.toNat = 0xAA || c.toNat = 0xB5 || c.toNat = 0xBA

/-- Python `str.isalpha()` on a single character (ASCII model). -/
def pyIsAlphaChar (c : Char) : Bool := c.isAlpha

/-- Python `str.lower()` (ASCII model). -/
def pyLower (s : String) : String := String.mk (s.data.map Char.toLower)

/-- Truthiness of an optional string value: `None` and `""` are falsy. -/
def truthyOptStr : Option String → Bool
  | none => false
  | some s => s ≠ ""

/-- `dict.get(key)`: an absent key and a key present as `None` both give
`None`. -/
def pyGet (f : Option (Option String)) : Option String := f.join

/-- `dict.get(key, dflt)`: the default is used only when the key is
absent; a key present as `None` still gives `None`. -/
def pyGetD (f : Option (Option String)) (dflt : String) : Option String :=
  match f with
  | none => some dflt
  | some v => v

/-- `prefixChars` is a prefix of `l`. -/
def listStartsWith : List Char → List Char → Bool
  | [], _ => true
  | _ :: _, [] => false
  | p :: ps, c :: cs => p = c && listStartsWith ps cs

/-- Python `str.startswith`. -/
def pyStartsWith (s pre : String) : Bool := listStartsWith pre.data s.data

/-- `sub` occurs as a contiguous sublist of `l` (Python `in` on
strings). -/
def listContainsSub (l sub : List Char) : Bool :=
  match l with
  | [] => sub.isEmpty
  | _ :: t => listStartsWith sub l || listContainsSub t sub

/-- Python substring containment `sub in s`. -/
def pyContains (s sub : String) : Bool := listContainsSub s.data sub.data

/-- Split a character list at every separator character satisfying
`p`, keeping empty pieces (the splitting step of `str.split`). -/
def listSplitPred (p : Char → Bool) : List Char → List (List Char)
  | [] => [[]]
  | c :: cs =>
    match listSplitPred p cs with
    | h :: t => if p c then [] :: h :: t else (c :: h) :: t
    | [] => if p c then [[], []] else [[c]]

/-- Python `str.split()` with no argument: split on whitespace runs,
discarding empty pieces. -/
def pySplit (s : String) : List String :=
  ((listSplitPred pyIsSpace s.data).map String.mk).filter (fun t => t ≠ "")

/-- Drop the trailing run of characters satisfying `p`. -/
def dropTrailWhile (p : Char → Bool) (l : List Char) : List Char :=
  (l.reverse.dropWhile p).reverse

/-- Python `str.strip()` on a character list. -/
def pyStripL (l : List Char) : List Char :=
  dropTrailWhile pyIsSpace (l.dropWhile pyIsSpace)

/-! ## Proleptic Gregorian calendar (CPython `datetime` transcription) -/

/-- Gregorian leap year test (CPython `_is_leap`). -/
def isLeap (y : Nat) : Bool :=
  y % 4 = 0 && (y % 100 ≠ 0 || y % 400 = 0)

/-- Days in each month of a non-leap year, indexed by `month - 1`
(CPython `_DAYS_IN_MONTH` without the `-1` sentinel). -/
def daysInMonthTable : List Nat := [31, 28, 31, 30, 31, 30, 31, 31, 30, 31, 30, 31]

/-- Days in a given month (CPython `_days_in_month`). -/
def daysInMonth (y m : Nat) : Nat :=
  if m = 2 && isLeap y then 29 else daysInMonthTable.getD (m - 1) 0

/-- Days in the year before the start of each month, indexed by
`month - 1` (CPython `_DAYS_BEFORE_MONTH` without the `-1` sentinel). -/
def daysBeforeMonthTable : List Nat := [0, 31, 59, 90, 120, 151, 181, 212, 243, 273, 304, 334]

/-- Days in year `y` preceding month `m` (CPython `_days_before_month`). -/
def daysBeforeMonth (y m : Nat) : Nat :=
  daysBeforeMonthTable.getD (m - 1) 0 + (if 2 < m && isLeap y then 1 else 0)

/-- Days before January 1st of year `y` (CPython `_days_before_year`). -/
def daysBeforeYear (y : Nat) : Nat :=
  (y - 1) * 365 + (y - 1) / 4 - (y - 1) / 100 + (y - 1) / 400

/-- Python `datetime.date`: a year/month/day record.  Dates produced by
the parsers below always satisfy `validDate`. -/
structure PyDate where
  year : Nat
  month : Nat
  day : Nat
  deriving DecidableEq, Repr

/-- The validity invariant `datetime.date` enforces on construction
(`MINYEAR = 1`, `MAXYEAR = 9999`). -/
def validDate (d : PyDate) : Bool :=
  1 ≤ d.year && d.year ≤ 9999 && 1 ≤ d.month && d.month ≤ 12 &&
    1 ≤ d.day && d.day ≤ daysInMonth d.year d.month

/-- CPython `date.toordinal`: day number with 0001-01-01 = 1. -/
def PyDate.toOrdinal (d : PyDate) : Nat :=
  daysBeforeYear d.year + daysBeforeMonth d.year d.month + d.day

/-- `date(9999, 12, 31).toordinal()`, the largest representable
ordinal. -/
def maxOrdinal : Nat := 3652059

/-- CPython `_ord2ymd`: inverse of `toordinal` on valid ordinals. -/
def ordToDate (n : Nat) : PyDate :=
  let n := n - 1
  let n400 := n / 146097
  let n := n % 146097
  let year := n400 * 400 + 1
  let n100 := n / 36524
  let n := n % 36524
  let n4 := n / 1461
  let n := n % 1461
  let n1 := n / 365
  let n := n % 365
  let year := year + n100 * 100 + n4 * 4 + n1
  if n1 = 4 || n100 = 4 then
    ⟨year - 1, 12, 31⟩
  else
    let month := (n + 50) >>> 5
    let preceding := daysBeforeMonth year month
    if n < preceding then
      let month := month - 1
      ⟨year, month, n - daysBeforeMonth year month + 1⟩
    else
      ⟨year, month, n - preceding + 1⟩

/-- `date.weekday()`: 0 = Monday.  Ordinal 1 (0001-01-01) is a Monday. -/
def PyDate.weekday (d : PyDate) : Nat := (d.toOrdinal + 6) % 7

/-- Zero-padded decimal of width 2 (Python `f"{n:02d}"` for
non-negative `n`). -/
def pad2 (n : Nat) : String :=
  if n < 10 then "0" ++ toString n else toString n

/-- Zero-padded decimal of width 4 for years (Python `date.isoformat`
pads the year to 4 digits). -/
def pad4 (n : Nat) : String :=
  if n < 10 then "000" ++ toString n
  else if n < 100 then "00" ++ toString n
  else if n < 1000 then "0" ++ toString n
  else toString n

/-- `date.isoformat()`: `YYYY-MM-DD`. -/
def PyDate.isoformat (d : PyDate) : String :=
  pad4 d.year ++ "-" ++ pad2 d.month ++ "-" ++ pad2 d.day

/-- Python date comparison (`<` compares year, month, day
lexicographically). -/
def PyDate.lt (a b : PyDate) : Bool :=
  a.year < b.year ||
    (a.year = b.year && (a.month < b.month ||
      (a.month = b.month && a.day < b.day)))

/-- Python `datetime.datetime`: a date, wall-clock time fields, and an
optional fixed UTC offset in minutes (`tz = none` models a naive
datetime). -/
structure PyDatetime where
  date : PyDate
  hour : Nat := 0
  minute : Nat := 0
  second : Nat := 0
  usec : Nat := 0
  tz : Option Int := none
  deriving DecidableEq, Repr

/-- Wall-clock microseconds since the epoch of ordinal 0 (ignores the
offset). -/
def PyDatetime.wallUsec (dt : PyDatetime) : Nat :=
  (((dt.date.toOrdinal * 24 + dt.hour) * 60 + dt.minute) * 60 + dt.second) * 1000000 + dt.usec

/-- Absolute (UTC) microseconds of an aware datetime with offset
`off` minutes. -/
def PyDatetime.absUsec (dt : PyDatetime) (off : Int) : Int :=
  (dt.wallUsec : Int) - off * 60000000

/-- Python `datetime < datetime`: aware datetimes compare as instants,
naive ones by wall clock, and comparing naive with aware raises
`TypeError` (modelled as `none`). -/
def pyLtDatetime (a b : PyDatetime) : Option Bool :=
  match a.tz, b.tz with
  | some oa, some ob => some (decide (a.absUsec oa < b.absUsec ob))
  | none, none => some (decide (a.wallUsec < b.wallUsec))
  | _, _ => none

/-! ## `datetime.fromisoformat` (Python 3.11 extended-format model)

The model accepts `YYYY-MM-DD`, optionally followed by a single
separator character (Python 3.11 allows any character; `T` and a space
are the ones that occur) and a time `HH[:MM[:SS[.f{1..6}]]]`, optionally
followed by an offset `Z` or `±HH[:MM]`.  Python 3.11 additionally
accepts some compact all-digit forms that never occur in the data the
source handles; they are outside this model. -/

/-- Decimal value of an ASCII digit. -/
def digitVal (c : Char) : Nat := c.toNat - 48

/-- Read exactly `k` ASCII digits. -/
def readDigits : Nat → List Char → Option (Nat × List Char)
  | 0, cs => some (0, cs)
  | k + 1, c :: cs =>
    if c.isDigit then
      match readDigits k cs with
      | some (v, rest) => some (digitVal c * 10 ^ k + v, rest)
      | none => none
    else none
  | _ + 1, [] => none

/-- Parse the `YYYY-MM-DD` prefix, validating the calendar date. -/
def parseIsoDate (cs : List Char) : Option (PyDate × List Char) :=
  match readDigits 4 cs with
  | none => none
  | some (y, r1) =>
    match r1 with
    | '-' :: r2 =>
      match readDigits 2 r2 with
      | none => none
      | some (m, r3) =>
        match r3 with
        | '-' :: r4 =>
          match readDigits 2 r4 with
          | none => none
          | some (d, r5) =>
            if validDate ⟨y, m, d⟩ then some (⟨y, m, d⟩, r5) else none
        | _ => none
    | _ => none

/-- Parse the fractional-second part `.f{1..6}` into microseconds. -/
def parseFraction (cs : List Char) : Option (Nat × List Char) :=
  match cs with
  | '.' :: r =>
    let digs := r.takeWhile Char.isDigit
    if digs.length = 0 || 6 < digs.length then none
    else
      let v := digs.foldl (fun a c => a * 10 + digitVal c) 0
      some (v * 10 ^ (6 - digs.length), r.drop digs.length)
  | _ => some (0, cs)

/-- Parse the UTC-offset suffix: empty, `Z`, or `±HH[:MM]`; returns the
offset in minutes. -/
def parseOffset (cs : List Char) : Option (Option Int) :=
  match cs with
  | [] => some none
  | ['Z'] => some (some 0)
  | sign :: r =>
    if sign = '+' || sign = '-' then
      match readDigits 2 r with
      | none => none
      | some (h, r1) =>
        match r1 with
        | [] =>
          if h ≤ 23 then
            some (some (if sign = '-' then -(h * 60 : Int) else (h * 60 : Int)))
          else none
        | ':' :: r2 =>
          match readDigits 2 r2 with
          | some (mi, []) =>
            if h ≤ 23 && mi ≤ 59 then
              some (some (if sign = '-' then -((h * 60 + mi : Nat) : Int) else ((h * 60 + mi : Nat) : Int)))
            else none
          | _ => none
        | _ => none
    else none

/-- Parse the time-of-day part `HH[:MM[:SS[.frac]]][offset]`. -/
def parseIsoTime (cs : List Char) : Option (Nat × Nat × Nat × Nat × Option Int) :=
  match readDigits 2 cs with
  | none => none
  | some (h, r1) =>
    if 23 < h then none
    else
      match r1 with
      | ':' :: r2 =>
        match readDigits 2 r2 with
        | none => none
        | some (mi, r3) =>
          if 59 < mi then none
          else
            match r3 with
            | ':' :: r4 =>
              match readDigits 2 r4 with
              | none => none
              | some (s, r5) =>
                if 59 < s then none
                else
                  match parseFraction r5 with
                  | none => none
                  | some (us, r6) =>
                    match parseOffset r6 with
                    | none => none
                    | some off => some (h, mi, s, us, off)
            | _ =>
              match parseOffset r3 with
              | none => none
              | some off => some (h, mi, 0, 0, off)
      | _ =>
        match parseOffset r1 with
        | none => none
        | some off => some (h, 0, 0, 0, off)

/-- `datetime.fromisoformat` on a string argument; `ValueError` is
modelled as `Except.error ()`. -/
def pyFromIso (s : String) : Except Unit PyDatetime :=
  match parseIsoDate s.data with
  | none => .error ()
  | some (d, rest) =>
    match rest with
    | [] => .ok { date := d }
    | _ :: timePart =>
      match parseIsoTime timePart with
      | none => .error ()
      | some (h, mi, sec, us, off) =>
        .ok { date := d, hour := h, minute := mi, second := sec, usec := us, tz := off }

/-! ## Due dictionaries and exceptions -/

/-- The keys of a Todoist due dictionary that the inference and overdue
code reads.  Each field follows the present/`None`/absent convention
described at the top of the file. -/
structure DueDict where
  date : Option (Option String) := none
  string : Option (Option String) := none
  next_recurring_date : Option (Option String) := none
  deriving DecidableEq, Repr

/-- Truthiness of a due dictionary (`not due_dict`), restricted to the
modelled keys: an empty dictionary is falsy. -/
def DueDict.truthy (d : DueDict) : Bool :=
  d.date.isSome || d.string.isSome || d.next_recurring_date.isSome

/-- Exceptions that can escape the modelled functions. -/
inductive PyErr
  /-- `AttributeError`, e.g. `None.lower()`. -/
  | attributeError
  /-- `OverflowError` from date + timedelta past `date.max`. -/
  | overflowError
  /-- `ValueError` from constructing a date outside year 1..9999. -/
  | valueError
  deriving DecidableEq, Repr

/-- Equality on `Except` results is decidable when it is on both
components. -/
instance {e a : Type} [DecidableEq e] [DecidableEq a] : DecidableEq (Except e a) :=
  fun x y =>
    match x, y with
    | .ok v, .ok w =>
      if h : v = w then isTrue (by rw [h]) else isFalse (by intro hc; cases hc; exact h rfl)
    | .error v, .error w =>
      if h : v = w then isTrue (by rw [h]) else isFalse (by intro hc; cases hc; exact h rfl)
    | .ok _, .error _ => isFalse (by intro hc; cases hc)
    | .error _, .ok _ => isFalse (by intro hc; cases hc)

/-! ## Date arithmetic (`dateutil.relativedelta` uses) -/

/-- `dt + relativedelta(days=n)` for `n ≥ 0`: plain day addition, which
raises `OverflowError` past `9999-12-31` (the `timedelta` step of
`relativedelta.__radd__`). -/
def pyAddDays (dt : PyDatetime) (n : Nat) : Except PyErr PyDatetime :=
  let o := dt.date.toOrdinal + n
  if o ≤ maxOrdinal then .ok { dt with date := ordToDate o }
  else .error .overflowError

/-- `dt + relativedelta(months=1)`: advance the month, clamping the day
to the target month's length; `datetime.replace` raises `ValueError`
past year 9999. -/
def pyAddMonths1 (dt : PyDatetime) : Except PyErr PyDatetime :=
  let y := if dt.date.month = 12 then dt.date.year + 1 else dt.date.year
  let m := if dt.date.month = 12 then 1 else dt.date.month + 1
  if y ≤ 9999 then
    .ok { dt with date := ⟨y, m, min dt.date.day (daysInMonth y m)⟩ }
  else .error .valueError

/-! ## `src/core/processing.py` -/

/-- The weekday short-form dictionary of
`_infer_next_weekday_recurrence` (Spanish and English, 0 = Monday). -/
def weekdayTable : List (String × Nat) :=
  [("lun", 0), ("mar", 1), ("mié", 2), ("mie", 2), ("jue", 3), ("vie", 4),
   ("sáb", 5), ("sab", 5), ("dom", 6),
   ("mon", 0), ("tue", 1), ("wed", 2), ("thu", 3), ("fri", 4), ("sat", 5), ("sun", 6)]

/-- `weekday_map.get(wd)`: dictionary lookup by exact key. -/
def weekdayMap (w : String) : Option Nat :=
  (weekdayTable.find? (fun p => p.1 == w)).map Prod.snd

/-- `_infer_next_weekday_recurrence(due_dt, recur_str)`: next occurrence
of the weekday named by the second whitespace-separated token, strictly
after the due date.  The `relativedelta` day addition can overflow at
the calendar's upper bound, which propagates (nothing catches it). -/
def infer_next_weekday_recurrence (due_dt : PyDatetime) (recur_str : String) :
    Except PyErr (Option String) :=
  match pySplit recur_str with
  | _ :: w :: _ =>
    match weekdayMap (String.mk (w.data.take 3)) with
    | some wd_idx =>
      let days_ahead := (wd_idx + 7 - due_dt.date.weekday) % 7
      let days_ahead := if days_ahead = 0 then 7 else days_ahead
      match pyAddDays due_dt days_ahead with
      | .ok next_dt => .ok (some next_dt.date.isoformat)
      | .error e => .error e
    | none => .ok none
  | _ => .ok none

/-- `infer_next_recurrence(due_dict)`: the next-recurrence predictor.
The `fromisoformat` failure is caught (yielding `None`); the
`.lower()` call on a `"string"` key holding `None` and the calendar
overflow of the date arithmetic are not inside any `try` and escape. -/
def infer_next_recurrence (due_dict : DueDict) : Except PyErr (Option String) :=
  let next_recurrence_date := pyGet due_dict.next_recurring_date
  if truthyOptStr next_recurrence_date then
    .ok next_recurrence_date
  else
    let due_date_str := pyGet due_dict.date
    match pyGetD due_dict.string "" with
    | none => .error .attributeError
    | some s0 =>
      let recur_str := pyLower s0
      if ! truthyOptStr due_date_str then .ok none
      else
        match pyFromIso (due_date_str.getD "") with
        | .error _ => .ok none
        | .ok due_dt =>
          if pyContains recur_str "cada mes" || pyContains recur_str "every month" then
            (pyAddMonths1 due_dt).map (fun dt2 => some dt2.date.isoformat)
          else if pyContains recur_str "cada día" || pyContains recur_str "every day" then
            (pyAddDays due_dt 1).map (fun dt2 => some dt2.date.isoformat)
          else if pyContains recur_str "cada semana" || pyContains recur_str "every week" then
            (pyAddDays due_dt 7).map (fun dt2 => some dt2.date.isoformat)
          else if pyStartsWith recur_str "cada " || pyStartsWith recur_str "every " then
            infer_next_weekday_recurrence due_dt recur_str
          else
            .ok none

/-- `is_task_overdue(due_dict, now, tz)`: `some b` models returning the
boolean `b`, `none` models returning Python `None` (unparseable date or
the naive/aware comparison `TypeError`, both caught by the
`except (ValueError, TypeError)` around the body). -/
def is_task_overdue (due_dict : Option DueDict) (now : PyDatetime) (tz : Int) :
    Option Bool :=
  match due_dict with
  | none => some false
  | some d =>
    if !d.truthy || !truthyOptStr (pyGet d.date) then some false
    else
      let due_date := (pyGet d.date).getD ""
      let today := now.date
      if due_date.data.contains 'T' then
        match pyFromIso due_date with
        | .error _ => none
        | .ok due_dt =>
          let due_dt := if due_dt.tz.isNone then { due_dt with tz := some tz } else due_dt
          pyLtDatetime due_dt now
      else
        match pyFromIso due_date with
        | .error _ => none
        | .ok due_dt => some (PyDate.lt due_dt.date today)

/-! ## `src/utils/frequency_labels.py` -/

/-- The five frequency label strings, `emoji + "frequency-" + number +
"-" + name` as built by `Frequency.label`. -/
def frequencyLabelStrings : List String :=
  ["🟢frequency-01-daily", "🔵frequency-02-multiweekly", "🟡frequency-03-weekly",
   "🔴frequency-05-monthly", "🟠frequency-04-multimonthly"]

/-- `FrequencyLabels.from_label` succeeds exactly on the five catalogue
labels (otherwise it raises `KeyError`). -/
def isFrequencyLabel (lab : String) : Bool := frequencyLabelStrings.contains lab

/-- `_has_non_frequency_label(labels)`: true iff some label is not a
recognized frequency label (the `KeyError` branch returns `True`). -/
def has_non_frequency_label (labels : List String) : Bool :=
  labels.any (fun lab => ! isFrequencyLabel lab)

/-! ## `src/main.py`: sequential-ID validation -/

/-- Python `int(s)`: optional surrounding whitespace, optional sign,
then at least one digit (ASCII model; Python also allows `_` grouping
and Unicode digits).  `none` models `ValueError`. -/
def pyInt (s : String) : Option Int :=
  let cs := pyStripL s.data
  let (sign, digs) : Int × List Char :=
    match cs with
    | '+' :: r => (1, r)
    | '-' :: r => (-1, r)
    | r => (1, r)
  if digs = [] || ¬ digs.all Char.isDigit then none
  else some (sign * (digs.foldl (fun a c => a * 10 + digitVal c) 0 : Nat))

/-- Python `range(a, b)` as a list of integers. -/
def pyRange (a b : Int) : List Int :=
  (List.range (b - a).toNat).map (fun k => a + (k : Int))

/-- Python `f"{n:02d}"`: decimal with a minimum width of 2, zero
padded (the sign counts toward the width). -/
def format02 (n : Int) : String :=
  if n < 0 then "-" ++ toString (-n)
  else if n < 10 then "0" ++ toString n.toNat
  else toString n.toNat

/-- Some id in the batch starts with the given required pattern. -/
def seqAnyPre (all_ids : List String) (pre : String) : Bool :=
  all_ids.any (fun id_str => pyStartsWith id_str pre)

/-- The two prerequisite loops of `_validate_sequential_id`, for a
parsed prefix letter `pc`, major number `fn` and minor number `sn`:
every previous major number must be represented, and (when `sn > 1`)
every previous minor number under the same major. -/
def seqPrereqOk (pc : Char) (fn sn : Int) (all_ids : List String) : Bool :=
  if ! (pyRange 1 fn).all (fun i =>
      seqAnyPre all_ids (String.singleton pc ++ format02 i ++ "-")) then false
  else if 1 < sn then
    (pyRange 1 sn).all (fun j =>
      seqAnyPre all_ids (String.singleton pc ++ format02 fn ++ "-" ++ format02 j ++ "-"))
  else true

/-- The identifier-parsing steps of `_validate_sequential_id`: split on
dashes into exactly three parts, take the alphabetic prefix letter and
the two integer segments; `none` models every caught
`ValueError`/`IndexError` parse failure (which makes the id invalid). -/
def seqParse (tid : String) : Option (Char × Int × Int) :=
  match (listSplitPred (fun c => c = '-') tid.data).map String.mk with
  | [first_part, second_part, _] =>
    match first_part.data with
    | [] => none
    | pc :: numChars =>
      if ! pyIsAlphaChar pc then none
      else
        match pyInt (String.mk numChars), pyInt second_part with
        | some first_num, some second_num => some (pc, first_num, second_num)
        | _, _ => none
  | _ => none

/-- `_validate_sequential_id(ticket_id, all_ids)`.  The first argument
may be the non-string `None` (modelled `none`); the batch id set is
modelled by the list of its elements (only membership is used). -/
def validate_sequential_id (ticket_id : Option String) (all_ids : List String) : Bool :=
  match ticket_id with
  | none => false
  | some tid =>
    if tid = "" then false
    else
      match seqParse tid with
      | some (pc, first_num, second_num) => seqPrereqOk pc first_num second_num all_ids
      | none => false

/-! ## Task records and the batch-wide passes -/

/-- The four parsed title fields (`TitleParts`). -/
structure TitleParts where
  freq : String
  id : String
  ticket_emoji : String
  text : String
  deriving DecidableEq, Repr

/-- The `title` sub-dictionary of an assembled task, with each key
optional as in the hand-built dictionaries the passes receive. -/
structure TitleInfo where
  is_complete : Option Bool := none
  parts : Option TitleParts := none
  duplicated_id : Option Bool := none
  sequential_id : Option Bool := none
  deriving DecidableEq, Repr

/-- The `frequency_labels` sub-dictionary fields the issue collector
reads. -/
structure FreqLabelsInfo where
  frequency_matches_label : Option Bool := none
  has_non_frequency : Option Bool := none
  deriving DecidableEq, Repr

/-- An assembled task record, restricted to the fields the batch-wide
passes read and write. -/
structure TaskRec where
  id : Option String := none
  title : Option TitleInfo := none
  frequency_labels : Option FreqLabelsInfo := none
  deriving DecidableEq, Repr

/-- `(t.get("title", {}).get("parts") or {}).get("id")`: the parsed
ticket id, `none` when the title or parts are missing. -/
def TaskRec.pid (t : TaskRec) : Option String :=
  match t.title with
  | none => none
  | some ti =>
    match ti.parts with
    | none => none
    | some p => some p.id

/-- The parsed ticket id when truthy (`if pid:`): non-`None` and
non-empty. -/
def TaskRec.truthyPid (t : TaskRec) : Option String :=
  match t.pid with
  | some s => if s = "" then none else some s
  | none => none

/-- `t.setdefault("title", {})["duplicated_id"] = v`. -/
def TaskRec.setDup (t : TaskRec) (v : Bool) : TaskRec :=
  { t with title := some { t.title.getD {} with duplicated_id := some v } }

/-- `t.setdefault("title", {})["sequential_id"] = v`. -/
def TaskRec.setSeq (t : TaskRec) (v : Bool) : TaskRec :=
  { t with title := some { t.title.getD {} with sequential_id := some v } }

/-- Number of tasks across all groups whose truthy parsed id equals
`p` (the `_id_counts` tally of `_mark_duplicated_ids`). -/
def idCountAll (all_groups : List (List TaskRec)) (p : String) : Nat :=
  all_groups.flatten.countP (fun t => t.truthyPid == some p)

/-- `_mark_duplicated_ids(all_groups)`: flag every task whose truthy id
occurs on more than one task across the whole batch. -/
def mark_duplicated_ids (all_groups : List (List TaskRec)) : List (List TaskRec) :=
  all_groups.map (List.map (fun t =>
    t.setDup (match t.truthyPid with
              | some p => decide (1 < idCountAll all_groups p)
              | none => false)))

/-- The `_all_ids` set of `_mark_sequential_ids`, as the list of truthy
parsed ids across the batch. -/
def allIdsOf (all_groups : List (List TaskRec)) : List String :=
  all_groups.flatten.filterMap TaskRec.truthyPid

/-- `_mark_sequential_ids(all_groups)`: annotate every task with the
sequential-validity of its parsed id against the batch id set.  Note the
raw (possibly `None` or empty) id is passed to the validator. -/
def mark_sequential_ids (all_groups : List (List TaskRec)) : List (List TaskRec) :=
  all_groups.map (List.map (fun t =>
    t.setSeq (validate_sequential_id t.pid (allIdsOf all_groups))))

/-- The issue strings `_collect_issue_tasks` appends for one task, in
its fixed check order. -/
def task_issues (t : TaskRec) : List String :=
  (if ¬ ((t.title.getD {}).is_complete.getD true) then ["title is incomplete"] else []) ++
  (if (t.title.getD {}).duplicated_id.getD false then ["duplicated ticket id"] else []) ++
  (if (t.title.getD {}).sequential_id == some false then ["non-sequential ticket id"] else []) ++
  (if ¬ ((t.frequency_labels.getD {}).frequency_matches_label.getD true) then
    ["frequency emoji does not match label"] else []) ++
  (if ¬ ((t.frequency_labels.getD {}).has_non_frequency.getD true) then
    ["missing non-frequency label"] else [])

/-- `_collect_issue_tasks(all_groups)`: the `{task_id, issues}` pairs
for every task with a non-empty issue list, in batch order. -/
def collect_issue_tasks (all_groups : List (List TaskRec)) :
    List (Option String × List String) :=
  all_groups.flatten.filterMap (fun t =>
    let issues := task_issues t
    if issues ≠ [] then some (t.id, issues) else none)

/-! ## `src/utils/validators.py`: the title grammar

`_PATTERN` is
`^\s*(?P<freq>\S+?)\s*(?P<id>\([A-Z]\d{2}-\d{2}-\d{2}\))\s*(?P<ticket_emoji>\W)\s*(?P<title>.+\S)\s*$`.
The matcher below spells out the backtracking search of `re.match` on
this pattern: the lazy `freq` grows one (non-whitespace) character at a
time; between groups each greedy `\s*` consumes a maximal whitespace
run and gives characters back one at a time on failure; `.` does not
match a newline; `$` also matches just before a final newline. -/

/-- The `(?P<id>\([A-Z]\d{2}-\d{2}-\d{2}\))` group matches at the head
of `l`. -/
def isAsciiDigit (c : Char) : Bool := 48 ≤ c.toNat && c.toNat ≤ 57

def isAsciiUpper (c : Char) : Bool := 65 ≤ c.toNat && c.toNat ≤ 90

def idCheck (l : List Char) : Bool :=
  match l with
  | '(' :: lc :: d1 :: d2 :: '-' :: d3 :: d4 :: '-' :: d5 :: d6 :: ')' :: _ =>
    isAsciiUpper lc && isAsciiDigit d1 && isAsciiDigit d2 &&
      isAsciiDigit d3 && isAsciiDigit d4 && isAsciiDigit d5 && isAsciiDigit d6
  | _ => false

/-- Match `\s*(?P<title>.+\S)\s*$` against `l`, returning the `title`
group.  The greedy `\s*` first leaves the title at the first non-blank
character (so the candidate group is `pyStripL l`, since the trailing
`\s*$` strips the tail); when that core is a single character (`.+\S`
needs two), backtracking lets the title start one whitespace character
earlier, at the last character of the leading whitespace run — if that
character is not a newline, which `.` cannot match. -/
def titleMatch (l : List Char) : Option (List Char) :=
  let body := pyStripL l
  if body.isEmpty || body.contains '\n' then none
  else if 2 ≤ body.length then some body
  else
    match (l.takeWhile pyIsSpace).getLast? with
    | some c => if c = '\n' then none else some (c :: body)
    | none => none

/-- Backtracking of the `\s*` before the `ticket_emoji` group:
`wsRev` is the not-yet-tried part of the whitespace run, reversed, so
its head is the candidate emoji closest to the run's end (tried first,
as greedy backtracking gives characters back one at a time); `tail` is
everything after the candidate. -/
def contBack2 : List Char → List Char → Option (Char × List Char)
  | [], _ => none
  | c :: wsRev, tail =>
    if pyIsWordChar c then contBack2 wsRev (c :: tail)
    else
      match titleMatch tail with
      | some ti => some (c, ti)
      | none => contBack2 wsRev (c :: tail)

/-- Match `\s*(?P<ticket_emoji>\W)\s*(?P<title>.+\S)\s*$` against
`l`: first the greedy position just after the whitespace run, then the
backtracking positions inside it. -/
def contMatch (l : List Char) : Option (Char × List Char) :=
  let ws := l.takeWhile pyIsSpace
  let core := l.dropWhile pyIsSpace
  let caseA : Option (Char × List Char) :=
    match core with
    | c :: rest =>
      if pyIsWordChar c then none
      else
        match titleMatch rest with
        | some ti => some (c, ti)
        | none => none
    | [] => none
  match caseA with
  | some r => some r
  | none => contBack2 ws.reverse core

/-- The lazy-`freq` search: `freqRev` holds the (reversed, non-empty,
whitespace-free) candidate `freq` group; `rest` is the input after it.
At each candidate the `id` group must match after a whitespace run, and
then the emoji/title continuation; otherwise `freq` grows by one
non-whitespace character. -/
def scanTitle (freqRev : List Char) (rest : List Char) :
    Option (List Char × List Char × Char × List Char) :=
  let afterWs := rest.drop (rest.takeWhile pyIsSpace).length
  let tryHere : Option (List Char × List Char × Char × List Char) :=
    if idCheck afterWs then
      match contMatch (afterWs.drop 11) with
      | some (e, ti) => some (freqRev.reverse, afterWs.take 11, e, ti)
      | none => none
    else none
  match tryHere with
  | some r => some r
  | none =>
    match rest with
    | [] => none
    | c :: rest2 => if pyIsSpace c then none else scanTitle (c :: freqRev) rest2

/-- `_RE.match(s)`: the groups `(freq, id, ticket_emoji, title)` of the
first (leftmost, lazy-`freq`) match, if any. -/
def reMatch (l : List Char) : Option (List Char × List Char × Char × List Char) :=
  match l.dropWhile pyIsSpace with
  | [] => none
  | c :: rest => scanTitle [c] rest

/-- The `_EMOJI_RANGES` character classes of the leading-emoji
regex. -/
def inEmojiRanges (c : Char) : Bool :=
  let n := c.toNat
  (0x1F300 ≤ n && n ≤ 0x1F5FF) || (0x1F600 ≤ n && n ≤ 0x1F64F) ||
    (0x1F680 ≤ n && n ≤ 0x1F6FF) || (0x2600 ≤ n && n ≤ 0x26FF) ||
    (0x2700 ≤ n && n ≤ 0x27BF) || (0x1F900 ≤ n && n ≤ 0x1F9FF) ||
    (0x1FA70 ≤ n && n ≤ 0x1FAFF)

/-- The `_INVISIBLE_EDGE_CHARS_RE` character set (variation selectors,
zero-width joiner/space, BOM). -/
def inInvisibleSet (c : Char) : Bool :=
  c.toNat = 0xFE0E || c.toNat = 0xFE0F || c.toNat = 0x200D || c.toNat = 0x200B ||
    c.toNat = 0xFEFF

/-- `_LEADING_EMOJI_RE.match(title)`: maximal leading emoji-range run,
a whitespace run, then the rest (`.` cannot cross a newline; `$` allows
one final newline, excluded from the group). -/
def leadingEmojiSplit (t : List Char) : Option (List Char × List Char) :=
  let lead := t.takeWhile inEmojiRanges
  if lead.isEmpty then none
  else
    let rem := (t.drop lead.length).dropWhile pyIsSpace
    if rem.contains '\n' then
      if rem.getLast? == some '\n' && ¬ rem.dropLast.contains '\n' then
        some (lead, rem.dropLast)
      else none
    else some (lead, rem)

/-- The post-processing `validate_ticket_name` applies to the matched
`ticket_emoji` character and `title` group: strip, move leading emoji
glyphs into the emoji field, remove asterisks, trim invisible edge
characters.  Returns the final `(ticket_emoji, text)` character
lists. -/
def postProcessTitle (emoji0 : Char) (titleGroup : List Char) :
    List Char × List Char :=
  let title := pyStripL titleGroup
  let (emoji, title) :=
    match leadingEmojiSplit title with
    | some (lead, rest) => ([emoji0] ++ lead, pyStripL rest)
    | none => ([emoji0], title)
  let title := if title.contains '*' then pyStripL (title.filter (fun c => c ≠ '*')) else title
  let title :=
    if ! title.isEmpty then
      pyStripL (dropTrailWhile inInvisibleSet (title.dropWhile inInvisibleSet))
    else title
  (emoji, title)

/-- `str.strip("()")`: remove leading and trailing runs of parentheses
(used to store the id without its enclosing parentheses). -/
def stripParens (l : List Char) : List Char :=
  dropTrailWhile (fun c => c = '(' || c = ')') (l.dropWhile (fun c => c = '(' || c = ')'))

/-- `validate_ticket_name(s, min_title_len=3)`.  A non-string argument
(modelled `none`) is rejected immediately; otherwise the pattern must
match and the post-processed title must reach the minimum length. -/
def validate_ticket_name (v : Option String) (min_title_len : Nat := 3) :
    Bool × Option TitleParts :=
  match v with
  | none => (false, none)
  | some s =>
    match reMatch s.data with
    | none => (false, none)
    | some (freq, idg, e0, titleg) =>
      let pr := postProcessTitle e0 titleg
      if pr.2.length < min_title_len then (false, none)
      else
        (true, some { freq := String.mk freq, id := String.mk (stripParens idg),
                      ticket_emoji := String.mk pr.1, text := String.mk pr.2 })

/-! ## `build_title_object` -/

/-- The `combined` reconstruction of `build_title_object`:
`freq + "(" + id + ")" + ticket_emoji + text`, with the parentheses
added only around a non-empty id. -/
def build_combined (p : TitleParts) : String :=
  p.freq ++ (if p.id ≠ "" then "(" ++ p.id ++ ")" else "") ++ p.ticket_emoji ++ p.text

/-- The title metadata object `build_title_object` returns (`combined`
is present exactly when the parts are a dictionary). -/
structure TitleObj where
  is_complete : Bool
  combined : Option String
  to_replace : Bool
  parts : Option TitleParts
  deriving DecidableEq, Repr

/-- `build_title_object(parts_of_the_title, title_is_valid, content)`;
a non-string `content` is modelled as `none`. -/
def build_title_object (parts : Option TitleParts) (title_is_valid : Bool)
    (content : Option String) : TitleObj :=
  let combined := parts.map build_combined
  { is_complete := title_is_valid
    combined := combined
    to_replace :=
      match combined, content with
      | some cb, some ct => title_is_valid && ct ≠ cb
      | _, _ => false
    parts := parts }

/-! ## Helper lemmas -/

/-- `List.any` is monotone under list inclusion. -/
theorem any_mono_of_subset {S T : List String} (hsub : ∀ x ∈ S, x ∈ T)
    (P : String → Bool) (h : S.any P = true) : T.any P = true := by
  simp only [List.any_eq_true] at h ⊢
  obtain ⟨x, hx, hPx⟩ := h
  exact ⟨x, hsub x hx, hPx⟩

/-- The prerequisite check is monotone in the batch id set. -/
theorem seqPrereqOk_mono {S T : List String} (pc : Char) (fn sn : Int)
    (hsub : ∀ x ∈ S, x ∈ T) (h : seqPrereqOk pc fn sn S = true) :
    seqPrereqOk pc fn sn T = true := by
  unfold seqPrereqOk seqAnyPre at h ⊢
  by_cases h1 : (pyRange 1 fn).all (fun i =>
      S.any (fun id_str => pyStartsWith id_str (String.singleton pc ++ format02 i ++ "-"))) = true
  · have h1T : (pyRange 1 fn).all (fun i =>
        T.any (fun id_str => pyStartsWith id_str (String.singleton pc ++ format02 i ++ "-"))) = true := by
      simp only [List.all_eq_true] at h1 ⊢
      exact fun i hi => any_mono_of_subset hsub _ (h1 i hi)
    rw [h1] at h
    rw [h1T]
    simp only [Bool.not_true, Bool.false_eq_true, if_false] at h ⊢
    by_cases h2 : 1 < sn
    · simp only [h2, if_true] at h ⊢
      simp only [List.all_eq_true] at h ⊢
      exact fun j hj => any_mono_of_subset hsub _ (h j hj)
    · simp [h2]
  · simp [h1] at h

/-- A list containing two distinct elements satisfying `p` has
`countP p ≥ 2`. -/
theorem two_le_countP {α : Type} [DecidableEq α] (l : List α) (p : α → Bool)
    (a b : α) (ha : a ∈ l) (hb : b ∈ l) (hab : a ≠ b)
    (hpa : p a = true) (hpb : p b = true) : 2 ≤ l.countP p := by
  have ha2 : a ∈ l.filter p := List.mem_filter.mpr ⟨ha, hpa⟩
  have hb2 : b ∈ l.filter p := List.mem_filter.mpr ⟨hb, hpb⟩
  rw [List.countP_eq_length_filter]
  match hf : l.filter p with
  | [] => rw [hf] at ha2; cases ha2
  | [x] =>
    rw [hf] at ha2 hb2
    simp only [List.mem_singleton] at ha2 hb2
    exact absurd (ha2.trans hb2.symm) hab
  | _ :: _ :: _ => simp

/-- Writing the duplicate flag does not change the parsed id. -/
theorem setDup_truthyPid (t : TaskRec) (v : Bool) :
    (t.setDup v).truthyPid = t.truthyPid := by
  cases h : t.title <;>
    simp [TaskRec.setDup, TaskRec.truthyPid, TaskRec.pid, h, Option.getD]

/-- Writing the sequential flag does not change the parsed id. -/
theorem setSeq_truthyPid (t : TaskRec) (v : Bool) :
    (t.setSeq v).truthyPid = t.truthyPid := by
  cases h : t.title <;>
    simp [TaskRec.setSeq, TaskRec.truthyPid, TaskRec.pid, h, Option.getD]

/-! ## Claim theorems -/

/-- C6: sequential-ID validation is monotone in the batch id set — for
every ticket id string and batch sets `S ⊆ T`, if
`_validate_sequential_id(id, S)` is true then
`_validate_sequential_id(id, T)` is true: enlarging the batch can only
turn an invalid identifier valid, never the reverse. -/
theorem c6_sequential_id_monotone (tid : String) (S T : List String)
    (hsub : ∀ x ∈ S, x ∈ T)
    (h : validate_sequential_id (some tid) S = true) :
    validate_sequential_id (some tid) T = true := by
  unfold validate_sequential_id at h ⊢
  by_cases htid : tid = ""
  · simp [htid] at h
  · simp only [if_neg htid] at h ⊢
    cases hp : seqParse tid with
    | none => rw [hp] at h; cases h
    | some v =>
      obtain ⟨pc, fn, sn⟩ := v
      rw [hp] at h
      exact seqPrereqOk_mono pc fn sn hsub h

/-- Witness for C6 at the spec's example: `C01-01-00` is valid in
`{"C01-01-00"}` and stays valid after adding `"C03-01-00"`. -/
theorem c6_sequential_id_monotone_witness :
    validate_sequential_id (some "C01-01-00") ["C01-01-00", "C03-01-00"] = true :=
  c6_sequential_id_monotone "C01-01-00" ["C01-01-00"] ["C01-01-00", "C03-01-00"]
    (by intro x hx; simp at hx; simp [hx]) (by decide)

/-- C7: after `_mark_duplicated_ids` runs over all buckets, a task is
flagged `duplicated_id = true` iff its parsed ticket id is truthy and
occurs on more than one task across the whole batch; and the flag is
symmetric — two distinct tasks sharing a truthy id are both flagged. -/
theorem c7_duplicated_ids (gs : List (List TaskRec)) :
    (∀ g' ∈ mark_duplicated_ids gs, ∀ t' ∈ g',
      (((t'.title.getD {}).duplicated_id = some true) ↔
        ∃ p, t'.truthyPid = some p ∧ 2 ≤ idCountAll gs p))
  ∧ (∀ g1 ∈ mark_duplicated_ids gs, ∀ t1 ∈ g1,
     ∀ g2 ∈ mark_duplicated_ids gs, ∀ t2 ∈ g2, ∀ p,
      t1.truthyPid = some p → t2.truthyPid = some p → t1 ≠ t2 →
        (t1.title.getD {}).duplicated_id = some true ∧
        (t2.title.getD {}).duplicated_id = some true) := by
  have key : ∀ g' ∈ mark_duplicated_ids gs, ∀ t' ∈ g',
      (((t'.title.getD {}).duplicated_id = some true) ↔
        ∃ p, t'.truthyPid = some p ∧ 2 ≤ idCountAll gs p) := by
    intro g' hg' t' ht'
    simp only [mark_duplicated_ids, List.mem_map] at hg'
    obtain ⟨g, hg, rfl⟩ := hg'
    simp only [List.mem_map] at ht'
    obtain ⟨t, ht, rfl⟩ := ht'
    rw [setDup_truthyPid]
    cases hpid : t.truthyPid with
    | none =>
      simp only [TaskRec.setDup, hpid, Option.getD_some, Option.some.injEq]
      constructor
      · intro hfalse; cases hfalse
      · rintro ⟨p, hp, _⟩; cases hp
    | some p0 =>
      simp only [TaskRec.setDup, hpid, Option.getD_some, Option.some.injEq]
      constructor
      · intro hdec
        have h1 : 1 < idCountAll gs p0 := of_decide_eq_true hdec
        exact ⟨p0, rfl, by omega⟩
      · rintro ⟨p, hp, hcount⟩
        obtain rfl : p0 = p := by cases hp; rfl
        exact decide_eq_true (by omega)
  refine ⟨key, ?_⟩
  intro g1 hg1 t1 ht1 g2 hg2 t2 ht2 p hp1 hp2 hne
  have hcount : 2 ≤ idCountAll gs p := by
    simp only [mark_duplicated_ids, List.mem_map] at hg1 hg2
    obtain ⟨g1o, hg1o, rfl⟩ := hg1
    obtain ⟨g2o, hg2o, rfl⟩ := hg2
    simp only [List.mem_map] at ht1 ht2
    obtain ⟨u1, hu1, rfl⟩ := ht1
    obtain ⟨u2, hu2, rfl⟩ := ht2
    rw [setDup_truthyPid] at hp1 hp2
    have hu1f : u1 ∈ gs.flatten := List.mem_flatten.mpr ⟨g1o, hg1o, hu1⟩
    have hu2f : u2 ∈ gs.flatten := List.mem_flatten.mpr ⟨g2o, hg2o, hu2⟩
    have hune : u1 ≠ u2 := by
      intro hequ; exact hne (by rw [hequ])
    exact two_le_countP gs.flatten _ u1 u2 hu1f hu2f hune
      (by simp [hp1]) (by simp [hp2])
  constructor
  · exact (key g1 hg1 t1 ht1).mpr ⟨p, hp1, hcount⟩
  · exact (key g2 hg2 t2 ht2).mpr ⟨p, hp2, hcount⟩

/-- A concrete task for the C7 witness. -/
def c7TaskA : TaskRec :=
  { id := some "a", title := some { parts := some ⟨"🟢", "A01-01-00", "!", "one"⟩ } }

/-- A second concrete task sharing the same parsed id. -/
def c7TaskB : TaskRec :=
  { id := some "b", title := some { parts := some ⟨"🟢", "A01-01-00", "!", "two"⟩ } }

/-- A two-bucket batch for the C7 witness. -/
def c7Groups : List (List TaskRec) := [[c7TaskA], [c7TaskB]]

/-- Witness for C7: two tasks in different buckets sharing id
`A01-01-00` are both flagged. -/
theorem c7_duplicated_ids_witness :
    ((c7TaskA.setDup true).title.getD {}).duplicated_id = some true ∧
    ((c7TaskB.setDup true).title.getD {}).duplicated_id = some true :=
  (c7_duplicated_ids c7Groups).2 [c7TaskA.setDup true] (by decide)
    (c7TaskA.setDup true) (by decide)
    [c7TaskB.setDup true] (by decide) (c7TaskB.setDup true) (by decide)
    "A01-01-00" (by decide) (by decide) (by decide)

/-- C9: after `_mark_sequential_ids`, every task whose parsed ticket id
is absent or empty carries `sequential_id = false`, and
`_collect_issue_tasks` reports it with the "non-sequential ticket id"
issue. -/
theorem c9_no_id_never_sequential (gs : List (List TaskRec)) :
    ∀ g' ∈ mark_sequential_ids gs, ∀ t' ∈ g', t'.truthyPid = none →
      (t'.title.getD {}).sequential_id = some false ∧
      "non-sequential ticket id" ∈ task_issues t' ∧
      (t'.id, task_issues t') ∈ collect_issue_tasks (mark_sequential_ids gs) := by
  intro g' hg' t' ht' hpid
  simp only [mark_sequential_ids, List.mem_map] at hg'
  obtain ⟨g, hg, rfl⟩ := hg'
  simp only [List.mem_map] at ht'
  obtain ⟨t, ht, rfl⟩ := ht'
  rw [setSeq_truthyPid] at hpid
  have hval : validate_sequential_id t.pid (allIdsOf gs) = false := by
    cases hp : t.pid with
    | none => rfl
    | some s =>
      have hs : s = "" := by
        simp only [TaskRec.truthyPid, hp] at hpid
        by_cases h0 : s = ""
        · exact h0
        · simp [h0] at hpid
      subst hs
      rfl
  have hseq : ((t.setSeq (validate_sequential_id t.pid (allIdsOf gs))).title.getD
      {}).sequential_id = some false := by
    rw [hval]; rfl
  refine ⟨hseq, ?_, ?_⟩
  · simp only [task_issues, hseq]
    simp
  · have hmem : t.setSeq (validate_sequential_id t.pid (allIdsOf gs)) ∈
        (mark_sequential_ids gs).flatten :=
      List.mem_flatten.mpr
        ⟨g.map (fun u => u.setSeq (validate_sequential_id u.pid (allIdsOf gs))),
         List.mem_map.mpr ⟨g, hg, rfl⟩, List.mem_map.mpr ⟨t, ht, rfl⟩⟩
    refine List.mem_filterMap.mpr
      ⟨t.setSeq (validate_sequential_id t.pid (allIdsOf gs)), hmem, ?_⟩
    have hne : task_issues (t.setSeq (validate_sequential_id t.pid (allIdsOf gs))) ≠ [] := by
      intro hnil
      have hin : "non-sequential ticket id" ∈
          task_issues (t.setSeq (validate_sequential_id t.pid (allIdsOf gs))) := by
        simp only [task_issues, hseq]; simp
      rw [hnil] at hin
      cases hin
    show (if task_issues (t.setSeq (validate_sequential_id t.pid (allIdsOf gs))) ≠ []
        then some ((t.setSeq (validate_sequential_id t.pid (allIdsOf gs))).id,
          task_issues (t.setSeq (validate_sequential_id t.pid (allIdsOf gs))))
        else none) = _
    rw [if_pos hne]

/-- A task with no parsed title parts, for the C9 witness. -/
def c9Task : TaskRec := { id := some "task9" }

/-- Witness for C9: a task without parts is marked non-sequential and
reported. -/
theorem c9_no_id_never_sequential_witness :
    ((c9Task.setSeq false).title.getD {}).sequential_id = some false ∧
    "non-sequential ticket id" ∈ task_issues (c9Task.setSeq false) ∧
    ((c9Task.setSeq false).id, task_issues (c9Task.setSeq false)) ∈
      collect_issue_tasks (mark_sequential_ids [[c9Task]]) :=
  c9_no_id_never_sequential [[c9Task]] [c9Task.setSeq false] (by decide)
    (c9Task.setSeq false) (by decide) (by decide)

/-- C10: a task with an empty label list gets
`_has_non_frequency_label = False` (the quantification is vacuous), and
any record carrying `has_non_frequency = false` is reported by
`_collect_issue_tasks` with the "missing non-frequency label" issue. -/
theorem c10_empty_labels_reported (gs : List (List TaskRec)) :
    has_non_frequency_label [] = false ∧
    (∀ (g : List TaskRec) (t : TaskRec), g ∈ gs → t ∈ g →
      (t.frequency_labels.getD {}).has_non_frequency = some false →
      "missing non-frequency label" ∈ task_issues t ∧
      (t.id, task_issues t) ∈ collect_issue_tasks gs) := by
  constructor
  · rfl
  · intro g t hg ht hnf
    have hin : "missing non-frequency label" ∈ task_issues t := by
      simp only [task_issues, hnf]; simp
    refine ⟨hin, ?_⟩
    have hmem : t ∈ gs.flatten := List.mem_flatten.mpr ⟨g, hg, ht⟩
    have hne : task_issues t ≠ [] := by
      intro hnil; rw [hnil] at hin; cases hin
    refine List.mem_filterMap.mpr ⟨t, hmem, ?_⟩
    show (if task_issues t ≠ [] then some (t.id, task_issues t) else none) = _
    rw [if_pos hne]

/-- A task whose reconciler output came from an empty label list, for
the C10 witness. -/
def c10Task : TaskRec :=
  { id := some "task10",
    frequency_labels := some { has_non_frequency := some (has_non_frequency_label []) } }

/-- Witness for C10. -/
theorem c10_empty_labels_reported_witness :
    "missing non-frequency label" ∈ task_issues c10Task ∧
    (c10Task.id, task_issues c10Task) ∈ collect_issue_tasks [[c10Task]] :=
  (c10_empty_labels_reported [[c10Task]]).2 [c10Task] c10Task (by decide) (by decide)
    (by decide)

/-- C3: with no due dictionary or a falsy date value the classifier
returns exactly the boolean `False`; with a present non-empty date
string that does not parse it returns the distinct `None` signal
(which is not `False`). -/
theorem c3_overdue_false_vs_none (now : PyDatetime) (tz : Int) :
    is_task_overdue none now tz = some false ∧
    (∀ d : DueDict, truthyOptStr (pyGet d.date) = false →
      is_task_overdue (some d) now tz = some false) ∧
    (∀ (d : DueDict) (s : String), pyGet d.date = some s → s ≠ "" →
      pyFromIso s = .error () →
      is_task_overdue (some d) now tz = none ∧
      is_task_overdue (some d) now tz ≠ some false) := by
  refine ⟨rfl, ?_, ?_⟩
  · intro d h
    simp [is_task_overdue, h]
  · intro d s hs hne hperr
    have hjoin : d.date = some (some s) := Option.join_eq_some.mp hs
    have htruthy : d.truthy = true := by
      simp [DueDict.truthy, hjoin]
    have htr : truthyOptStr (pyGet d.date) = true := by
      simp [hs, truthyOptStr, hne]
    have hmain : is_task_overdue (some d) now tz = none := by
      simp only [is_task_overdue]
      rw [htruthy, htr]
      simp only [Bool.not_true, Bool.or_self, Bool.false_eq_true, if_false, hs,
        Option.getD_some]
      rw [hperr]
      split <;> rfl
    exact ⟨hmain, by rw [hmain]; intro hcon; cases hcon⟩

/-- Witness for C3 at a concrete unparseable date string. -/
theorem c3_overdue_false_vs_none_witness :
    is_task_overdue (some ⟨some (some "garbage"), none, none⟩)
      ⟨⟨2025, 11, 21⟩, 0, 0, 0, 0, none⟩ 0 = none :=
  ((c3_overdue_false_vs_none ⟨⟨2025, 11, 21⟩, 0, 0, 0, 0, none⟩ 0).2.2
    ⟨some (some "garbage"), none, none⟩ "garbage" rfl (by decide) rfl).1

/-- C8: title validation is all-or-nothing — a non-string input gives
`(False, None)` without raising; every string input gives either
`(True, parts)` with all four fields populated or `(False, None)`; and
the success case holds exactly when the grammar matches and the
post-processed title has at least the minimum length (default 3). -/
theorem c8_validate_all_or_nothing :
    validate_ticket_name none = (false, none) ∧
    (∀ s : String,
      (∃ p : TitleParts, validate_ticket_name (some s) = (true, some p)) ∨
        validate_ticket_name (some s) = (false, none)) ∧
    (∀ s : String, (validate_ticket_name (some s)).1 = true ↔
      (∃ freq idg e0 titleg, reMatch s.data = some (freq, idg, e0, titleg) ∧
        3 ≤ (postProcessTitle e0 titleg).2.length)) := by
  refine ⟨rfl, ?_, ?_⟩
  · intro s
    simp only [validate_ticket_name]
    cases hm : reMatch s.data with
    | none => right; rfl
    | some q =>
      obtain ⟨freq, idg, e0, titleg⟩ := q
      by_cases hl : (postProcessTitle e0 titleg).2.length < 3
      · right; simp only [hl, if_true]
      · left
        refine ⟨{ freq := String.mk freq, id := String.mk (stripParens idg),
                  ticket_emoji := String.mk (postProcessTitle e0 titleg).1,
                  text := String.mk (postProcessTitle e0 titleg).2 }, ?_⟩
        simp only [hl, if_false]
  · intro s
    simp only [validate_ticket_name]
    cases hm : reMatch s.data with
    | none =>
      simp only []
      constructor
      · intro hcon; simp at hcon
      · rintro ⟨f2, i2, e2, t2, hm2, _⟩; cases hm2
    | some q =>
      obtain ⟨freq, idg, e0, titleg⟩ := q
      by_cases hl : (postProcessTitle e0 titleg).2.length < 3
      · simp only [hl, if_true]
        constructor
        · intro hcon; simp at hcon
        · rintro ⟨f2, i2, e2, t2, hm2, hlen⟩
          simp only [Option.some.injEq, Prod.mk.injEq] at hm2
          obtain ⟨rfl, rfl, rfl, rfl⟩ := hm2
          omega
      · simp only [hl, if_false]
        constructor
        · intro hyp
          exact ⟨freq, idg, e0, titleg, rfl, by omega⟩
        · intro hyp; trivial

/-- Witness for C8 at the spec's example title. -/
theorem c8_validate_all_or_nothing_witness :
    (validate_ticket_name (some "🟢(B01-16-00)📴Stop all phone apps")).1 = true :=
  (c8_validate_all_or_nothing.2.2 "🟢(B01-16-00)📴Stop all phone apps").mpr
    ⟨"🟢".data, "(B01-16-00)".data, '📴', "Stop all phone apps".data, by decide, by decide⟩

/-- Modelled from the spec's words for the C1 comparison: "the reference
instant's date component computed in the given timezone `tz`" — convert
the aware instant to UTC, shift by the target offset, and take the
calendar date (undefined for a naive instant). -/
def spec_date_in_tz (now : PyDatetime) (tz : Int) : Option PyDate :=
  match now.tz with
  | none => none
  | some off =>
    some (ordToDate
      ((((now.wallUsec : Int) - off * 60000000 + tz * 60000000).ediv 86400000000).toNat))

/-- Counterexample to C1 as stated: with due date `2025-01-01`, the
reference instant `2025-01-02T01:00+00:00` and timezone UTC-5, the
classifier returns `True`, yet the reference instant's date component
computed in that timezone is `2025-01-01`, which the due date is not
strictly earlier than — the code compares against `now.date()` without
converting to `tz`. -/
theorem c1_overdue_dateonly_counterexample :
    is_task_overdue (some ⟨some (some "2025-01-01"), none, none⟩)
      ⟨⟨2025, 1, 2⟩, 1, 0, 0, 0, some 0⟩ (-300) = some true ∧
    pyFromIso "2025-01-01" = .ok ⟨⟨2025, 1, 1⟩, 0, 0, 0, 0, none⟩ ∧
    spec_date_in_tz ⟨⟨2025, 1, 2⟩, 1, 0, 0, 0, some 0⟩ (-300) = some ⟨2025, 1, 1⟩ ∧
    PyDate.lt ⟨2025, 1, 1⟩ ⟨2025, 1, 1⟩ = false :=
  ⟨by decide, rfl, by decide, by decide⟩

/-- C1 (amended): for a due dictionary whose date string has no `T` and
parses as a calendar date, the classifier returns true iff the parsed
due date is strictly earlier than `now.date()` — the date component of
the reference instant as given, without any conversion to `tz` (the
timezone argument does not influence this branch); in particular a due
date equal to `now.date()` gives false. -/
theorem c1_overdue_dateonly_amended (d : DueDict) (s : String) (dt : PyDatetime)
    (now : PyDatetime) (tz : Int)
    (hdate : d.date = some (some s)) (hnoT : s.data.contains 'T' = false)
    (hparse : pyFromIso s = .ok dt) :
    is_task_overdue (some d) now tz = some (dt.date.lt now.date) := by
  have hne : s ≠ "" := by
    intro h0
    subst h0
    rw [show pyFromIso "" = .error () from rfl] at hparse
    cases hparse
  have hget : pyGet d.date = some s := by rw [hdate]; rfl
  have htruthy : d.truthy = true := by simp [DueDict.truthy, hdate]
  have htr : truthyOptStr (pyGet d.date) = true := by simp [hget, truthyOptStr, hne]
  simp only [is_task_overdue]
  rw [htruthy, htr]
  simp only [Bool.not_true, Bool.or_self, Bool.false_eq_true, if_false, hget,
    Option.getD_some]
  rw [hnoT]
  simp only [Bool.false_eq_true, if_false]
  rw [hparse]

/-- Witness for the amended C1 at a concrete date-only due value. -/
theorem c1_overdue_dateonly_amended_witness :
    is_task_overdue (some ⟨some (some "2025-11-20"), none, none⟩)
      ⟨⟨2025, 11, 21⟩, 12, 0, 0, 0, none⟩ (-300) =
      some (PyDate.lt ⟨2025, 11, 20⟩ ⟨2025, 11, 21⟩) :=
  c1_overdue_dateonly_amended ⟨some (some "2025-11-20"), none, none⟩ "2025-11-20"
    ⟨⟨2025, 11, 20⟩, 0, 0, 0, 0, none⟩ ⟨⟨2025, 11, 21⟩, 12, 0, 0, 0, none⟩ (-300)
    rfl (by decide) rfl

/-- Every entry of the month-offset table is at most 334. -/
theorem daysBeforeMonthTable_getD_le (i : Nat) : daysBeforeMonthTable.getD i 0 ≤ 334 := by
  match i with
  | 0 | 1 | 2 | 3 | 4 | 5 | 6 | 7 | 8 | 9 | 10 | 11 => decide
  | n + 12 =>
    have hd : daysBeforeMonthTable.getD (n + 12) 0 = 0 :=
      List.getD_eq_default _ _ (by simp [daysBeforeMonthTable])
    rw [hd]; omega

/-- `daysBeforeMonth` never exceeds 335. -/
theorem daysBeforeMonth_le (y m : Nat) : daysBeforeMonth y m ≤ 335 := by
  unfold daysBeforeMonth
  have h := daysBeforeMonthTable_getD_le (m - 1)
  split <;> omega

/-- Every month length is at most 31. -/
theorem daysInMonth_le (y m : Nat) : daysInMonth y m ≤ 31 := by
  unfold daysInMonth
  split
  · omega
  · match m with
    | 0 => decide
    | 1 | 2 | 3 | 4 | 5 | 6 | 7 | 8 | 9 | 10 | 11 | 12 => decide
    | n + 13 =>
      have hd : daysInMonthTable.getD (n + 13 - 1) 0 = 0 :=
        List.getD_eq_default _ _ (by simp [daysInMonthTable])
      rw [hd]; omega

/-- A valid date of year at most 9998 keeps a full week inside the
representable ordinal range. -/
theorem toOrdinal_add_week_le (d : PyDate) (hv : validDate d = true)
    (hy : d.year ≤ 9998) : d.toOrdinal + 7 ≤ maxOrdinal := by
  unfold validDate at hv
  simp only [Bool.and_eq_true, decide_eq_true_eq] at hv
  obtain ⟨⟨⟨⟨⟨h1, h2⟩, h3⟩, h4⟩, h5⟩, h6⟩ := hv
  have hbm : daysBeforeMonth d.year d.month ≤ 335 := daysBeforeMonth_le _ _
  have hdm : d.day ≤ 31 := le_trans h6 (daysInMonth_le _ _)
  unfold PyDate.toOrdinal daysBeforeYear maxOrdinal
  omega

/-- A successfully parsed date prefix passed the calendar validity
check. -/
theorem parseIsoDate_valid (cs : List Char) (d : PyDate) (rest : List Char)
    (h : parseIsoDate cs = some (d, rest)) : validDate d = true := by
  unfold parseIsoDate at h
  split at h
  · cases h
  · split at h
    · split at h
      · cases h
      · split at h
        · split at h
          · cases h
          · split at h
            · cases h; assumption
            · cases h
        · cases h
    · cases h

/-- A datetime produced by `fromisoformat` carries a valid calendar
date. -/
theorem pyFromIso_valid (s : String) (dt : PyDatetime)
    (h : pyFromIso s = .ok dt) : validDate dt.date = true := by
  unfold pyFromIso at h
  split at h
  · cases h
  · rename_i d0 rest hparse
    have hd0 : validDate d0 = true := parseIsoDate_valid _ _ _ hparse
    split at h
    · cases h; exact hd0
    · split at h
      all_goals cases h
      all_goals exact hd0

/-- The weekday predictor cannot fail when a week after the due date is
still representable. -/
theorem infer_next_weekday_isOk (dt : PyDatetime) (rs : String)
    (hbound : dt.date.toOrdinal + 7 ≤ maxOrdinal) :
    (infer_next_weekday_recurrence dt rs).isOk = true := by
  unfold infer_next_weekday_recurrence
  split
  · rename_i h0 w tl heq
    cases hmap : weekdayMap (String.mk (w.data.take 3)) with
    | none => rfl
    | some wd_idx =>
      have hok : dt.date.toOrdinal +
          (if (wd_idx + 7 - dt.date.weekday) % 7 = 0 then 7
            else (wd_idx + 7 - dt.date.weekday) % 7) ≤ maxOrdinal := by
        have hx : (wd_idx + 7 - dt.date.weekday) % 7 < 7 := Nat.mod_lt _ (by omega)
        split <;> omega
      have hadd : pyAddDays dt
          (if (wd_idx + 7 - dt.date.weekday) % 7 = 0 then 7
            else (wd_idx + 7 - dt.date.weekday) % 7) =
          .ok { dt with date := ordToDate (dt.date.toOrdinal +
            (if (wd_idx + 7 - dt.date.weekday) % 7 = 0 then 7
              else (wd_idx + 7 - dt.date.weekday) % 7)) } := by
        unfold pyAddDays
        rw [if_pos hok]
      simp only [hadd]
      rfl
  · rfl

/-- Counterexample to C2 as stated: a due dictionary whose `"string"`
key is present with value `None` (and no shortcut date) makes
`infer_next_recurrence` raise `AttributeError` from `None.lower()` —
the call sits outside the `try` that guards date parsing. -/
theorem c2_infer_counterexample :
    infer_next_recurrence ⟨none, some none, none⟩ = .error .attributeError := rfl

/-- C2 (amended): `infer_next_recurrence` terminates normally — all
parse failures yield the absent value rather than an error — provided
(a) the `"string"` key, when present, holds an actual string (or the
shortcut `next_recurring_date` is truthy, which returns before the
`.lower()` call), and (b) when the due date parses, it is early enough
(year ≤ 9998) that the uncaught `relativedelta` arithmetic cannot
overflow the calendar's year-9999 bound. -/
theorem c2_infer_total_amended (d : DueDict)
    (hstr : d.string ≠ some none ∨ truthyOptStr (pyGet d.next_recurring_date) = true)
    (hyear : ∀ dt : PyDatetime, pyFromIso ((pyGet d.date).getD "") = .ok dt →
      dt.date.year ≤ 9998) :
    (infer_next_recurrence d).isOk = true := by
  unfold infer_next_recurrence
  by_cases hnext : truthyOptStr (pyGet d.next_recurring_date) = true
  · simp only [hnext, if_true]
    rfl
  · have hnext2 : truthyOptStr (pyGet d.next_recurring_date) = false := by
      simpa using hnext
    simp only [hnext2, Bool.false_eq_true, if_false]
    obtain ⟨s0, hs0⟩ : ∃ s0, pyGetD d.string "" = some s0 := by
      rcases hstr with h | h
      · match hd : d.string with
        | none => exact ⟨"", by simp [pyGetD, hd]⟩
        | some none => exact absurd hd h
        | some (some s) => exact ⟨s, by simp [pyGetD, hd]⟩
      · exact absurd h hnext
    simp only [hs0]
    by_cases hds : truthyOptStr (pyGet d.date) = true
    · simp only [hds, Bool.not_true, Bool.false_eq_true, if_false]
      split
      · rfl
      · rename_i due_dt hp
        have hv : validDate due_dt.date = true := pyFromIso_valid _ _ hp
        have hy : due_dt.date.year ≤ 9998 := hyear due_dt hp
        have hbound : due_dt.date.toOrdinal + 7 ≤ maxOrdinal :=
          toOrdinal_add_week_le _ hv hy
        have hm1 : (if due_dt.date.month = 12 then due_dt.date.year + 1
            else due_dt.date.year) ≤ 9999 := by split <;> omega
        split
        · simp only [pyAddMonths1, hm1, if_true]
          rfl
        · split
          · have hok1 : due_dt.date.toOrdinal + 1 ≤ maxOrdinal := by omega
            simp only [pyAddDays, hok1, if_true]
            rfl
          · split
            · simp only [pyAddDays, hbound, if_true]
              rfl
            · split
              · exact infer_next_weekday_isOk _ _ hbound
              · rfl
    · have hds2 : truthyOptStr (pyGet d.date) = false := by simpa using hds
      simp only [hds2, Bool.not_false, if_true]
      rfl

/-- Witness for the amended C2 at a concrete recurring due
dictionary. -/
theorem c2_infer_total_amended_witness :
    (infer_next_recurrence ⟨some (some "2025-11-21"), some (some "cada sáb"), none⟩).isOk
      = true :=
  c2_infer_total_amended ⟨some (some "2025-11-21"), some (some "cada sáb"), none⟩
    (Or.inl (by decide))
    (by
      intro dt h
      rw [show pyFromIso ((pyGet (some (some "2025-11-21"))).getD "") =
        .ok ⟨⟨2025, 11, 21⟩, 0, 0, 0, 0, none⟩ from rfl] at h
      cases h
      decide)

/-- Every weekday index in the table is between 0 and 6. -/
theorem weekdayMap_le (w : String) (t : Nat) (h : weekdayMap w = some t) : t ≤ 6 := by
  unfold weekdayMap at h
  cases hf : weekdayTable.find? (fun p => p.1 == w) with
  | none => rw [hf] at h; cases h
  | some pr =>
    rw [hf] at h
    simp only [Option.map_some'] at h
    cases h
    have hm : pr ∈ weekdayTable := List.mem_of_find?_eq_some hf
    have hall : ∀ p ∈ weekdayTable, p.2 ≤ 6 := by decide
    exact hall _ hm

/-- Counterexample to C4 as stated: for the parseable due date
`9999-12-31` (a Friday) and the phrase `every fri` naming its own
weekday, the predictor does not return the date 7 days later — the
`relativedelta` day addition overflows the calendar's year-9999 bound
and the function raises `OverflowError`. -/
theorem c4_weekday_counterexample :
    infer_next_recurrence ⟨some (some "9999-12-31"), some (some "every fri"), none⟩ =
      .error .overflowError := by decide

/-- C4 (amended): for every due date from which a full week stays
within the representable calendar range, and every recurrence phrase
whose second whitespace token abbreviates (first three characters) a
recognized weekday `t`, the predictor returns the ISO date of ordinal
`due + k`, where `k` is between 1 and 7, the day `due + k` falls on
weekday `t` (day ordinal `n` falls on weekday `(n + 6) % 7`, Monday=0),
no earlier day strictly after the due date falls on `t`, and `k = 7`
exactly when `t` is the due date's own weekday — so the due date itself
is never returned. -/
theorem c4_weekday_amended (dt : PyDatetime) (recurStr : String) (t : Nat)
    (hsplit : ∃ a w rest2, pySplit recurStr = a :: w :: rest2 ∧
      weekdayMap (String.mk (w.data.take 3)) = some t)
    (hbound : dt.date.toOrdinal + 7 ≤ maxOrdinal) :
    ∃ k, infer_next_weekday_recurrence dt recurStr =
        .ok (some (ordToDate (dt.date.toOrdinal + k)).isoformat) ∧
      1 ≤ k ∧ k ≤ 7 ∧
      (dt.date.toOrdinal + k + 6) % 7 = t ∧
      (k = 7 ↔ t = dt.date.weekday) ∧
      (∀ j : Nat, 0 < j → j < k → (dt.date.toOrdinal + j + 6) % 7 ≠ t) := by
  obtain ⟨a, w, rest2, hsp, hmap⟩ := hsplit
  have ht6 : t ≤ 6 := weekdayMap_le _ _ hmap
  have hwd : dt.date.weekday = (dt.date.toOrdinal + 6) % 7 := rfl
  have hwd7 : dt.date.weekday < 7 := by rw [hwd]; exact Nat.mod_lt _ (by omega)
  unfold infer_next_weekday_recurrence
  rw [hsp]
  simp only [hmap]
  set k := (if (t + 7 - dt.date.weekday) % 7 = 0 then 7
    else (t + 7 - dt.date.weekday) % 7) with hk
  have hx7 : (t + 7 - dt.date.weekday) % 7 < 7 := Nat.mod_lt _ (by omega)
  have hk1 : 1 ≤ k := by rw [hk]; split <;> omega
  have hk7 : k ≤ 7 := by rw [hk]; split <;> omega
  have hokb : dt.date.toOrdinal + k ≤ maxOrdinal := by omega
  have hadd : pyAddDays dt k = .ok { dt with date := ordToDate (dt.date.toOrdinal + k) } := by
    unfold pyAddDays
    rw [if_pos hokb]
  refine ⟨k, ?_, hk1, hk7, ?_, ?_, ?_⟩
  · simp only [hadd]
  · rw [hk, hwd]
    split <;> omega
  · constructor
    · intro h7
      rw [hk] at h7
      rw [hwd]
      split at h7 <;> omega
    · intro hteq
      rw [hk, hteq]
      simp
  · intro j hj0 hjk
    rw [hk] at hjk
    rw [hwd] at hjk
    intro hcon
    split at hjk <;> omega

/-- Witness for the amended C4: due `2025-11-22` is a Saturday, so
`every sat` advances a full week to `2025-11-29`. -/
theorem c4_weekday_amended_witness :
    infer_next_weekday_recurrence ⟨⟨2025, 11, 22⟩, 0, 0, 0, 0, none⟩ "every sat" =
      .ok (some "2025-11-29") := by
  obtain ⟨k, hk, _, _, _, hiff, _⟩ :=
    c4_weekday_amended ⟨⟨2025, 11, 22⟩, 0, 0, 0, 0, none⟩ "every sat" 5
      ⟨"every", "sat", [], by decide, by decide⟩ (by decide)
  have hk7 : k = 7 := hiff.mpr (by decide)
  rw [hk7] at hk
  rw [hk]
  decide

/-- Counterexample to C5 as stated: the content
`"x(A01-02-03) (B01-01-01)\n! hello"` parses successfully (the newline
blocks the earlier match, so the lazy `freq` swallows the embedded
id-shaped text `x(A01-02-03)`), but its reconstruction
`"x(A01-02-03)(B01-01-01)!hello"` re-parses with the match anchored at
the embedded id — different `TitleParts`, violating the round-trip. -/
theorem c5_roundtrip_counterexample :
    validate_ticket_name (some "x(A01-02-03) (B01-01-01)\n! hello") =
      (true, some ⟨"x(A01-02-03)", "B01-01-01", "!", "hello"⟩) ∧
    build_combined ⟨"x(A01-02-03)", "B01-01-01", "!", "hello"⟩ =
      "x(A01-02-03)(B01-01-01)!hello" ∧
    validate_ticket_name (some "x(A01-02-03)(B01-01-01)!hello") =
      (true, some ⟨"x", "A01-02-03", "(", "B01-01-01)!hello"⟩) :=
  ⟨by decide, by decide, by decide⟩

/-! ## List toolkit for the round-trip proof -/

theorem dropWhile_head_false {p : Char → Bool} {l t : List Char} {c : Char}
    (h : l.dropWhile p = c :: t) : p c = false := by
  induction l with
  | nil => cases h
  | cons a l ih =>
    rw [List.dropWhile_cons] at h
    split at h
    · exact ih h
    · cases h
      rename_i hpc
      simpa using hpc

theorem dropWhile_eq_self_of_head {p : Char → Bool} {l : List Char}
    (h : ∀ c, l.head? = some c → p c = false) : l.dropWhile p = l := by
  cases l with
  | nil => rfl
  | cons a t =>
    rw [List.dropWhile_cons, h a rfl]
    simp

theorem dropTrailWhile_eq_self {p : Char → Bool} {l : List Char}
    (h : ∀ c, l.getLast? = some c → p c = false) : dropTrailWhile p l = l := by
  unfold dropTrailWhile
  rw [dropWhile_eq_self_of_head, List.reverse_reverse]
  intro c hc
  apply h
  rwa [← List.head?_reverse]

theorem pyStripL_eq_self {l : List Char}
    (h1 : ∀ c, l.head? = some c → pyIsSpace c = false)
    (h2 : ∀ c, l.getLast? = some c → pyIsSpace c = false) : pyStripL l = l := by
  unfold pyStripL
  rw [dropWhile_eq_self_of_head h1, dropTrailWhile_eq_self h2]

theorem dropTrailWhile_prefixOf (p : Char → Bool) (l : List Char) :
    dropTrailWhile p l <+: l := by
  unfold dropTrailWhile
  have h := List.dropWhile_suffix (l := l.reverse) p
  have h2 := h.reverse
  rwa [List.reverse_reverse] at h2

theorem dropTrailWhile_sublist (p : Char → Bool) (l : List Char) :
    List.Sublist (dropTrailWhile p l) l :=
  (dropTrailWhile_prefixOf p l).sublist

theorem pyStripL_sublist (l : List Char) : List.Sublist (pyStripL l) l :=
  (dropTrailWhile_sublist _ _).trans (List.dropWhile_sublist _)

theorem pyStripL_head_false {l t : List Char} {c : Char}
    (h : pyStripL l = c :: t) : pyIsSpace c = false := by
  unfold pyStripL at h
  obtain ⟨r, hr⟩ := dropTrailWhile_prefixOf pyIsSpace (l.dropWhile pyIsSpace)
  rw [h] at hr
  exact dropWhile_head_false hr.symm

theorem pyStripL_getLast_false {l : List Char} {c : Char}
    (h : (pyStripL l).getLast? = some c) : pyIsSpace c = false := by
  unfold pyStripL dropTrailWhile at h
  rw [List.getLast?_reverse] at h
  cases hd : (l.dropWhile pyIsSpace).reverse.dropWhile pyIsSpace with
  | nil => rw [hd] at h; cases h
  | cons a t =>
    rw [hd] at h
    cases h
    exact dropWhile_head_false hd

theorem takeWhile_append_all {p : Char → Bool} {L R : List Char}
    (hL : ∀ c ∈ L, p c = true) (hR : ∀ c, R.head? = some c → p c = false) :
    (L ++ R).takeWhile p = L := by
  induction L with
  | nil =>
    cases R with
    | nil => rfl
    | cons a t =>
      simp only [List.nil_append, List.takeWhile_cons, hR a rfl]
      simp
  | cons a L ih =>
    simp only [List.cons_append, List.takeWhile_cons, hL a (by simp)]
    simp only [if_true]
    rw [ih (fun c hc => hL c (by simp [hc]))]

theorem dropWhile_append_all {p : Char → Bool} {L R : List Char}
    (hL : ∀ c ∈ L, p c = true) (hR : ∀ c, R.head? = some c → p c = false) :
    (L ++ R).dropWhile p = R := by
  induction L with
  | nil => exact dropWhile_eq_self_of_head hR
  | cons a L ih =>
    simp only [List.cons_append, List.dropWhile_cons, hL a (by simp)]
    simp only [if_true]
    exact ih (fun c hc => hL c (by simp [hc]))

theorem getLast?_append_right {L R : List Char} (h : R ≠ []) :
    (L ++ R).getLast? = R.getLast? := by
  induction L with
  | nil => rfl
  | cons a L ih =>
    rw [List.cons_append, List.getLast?_cons, ih]
    cases R with
    | nil => exact absurd rfl h
    | cons b t => simp [List.getLast?_cons]

theorem pyStripL_cons_ws {c : Char} {l : List Char} (hc : pyIsSpace c = true) :
    pyStripL (c :: l) = pyStripL l := by
  unfold pyStripL
  rw [List.dropWhile_cons, hc]
  simp

theorem pyStripL_dropWhile (l : List Char) :
    pyStripL (l.dropWhile pyIsSpace) = pyStripL l := by
  unfold pyStripL
  rw [List.dropWhile_idempotent]

theorem pyStripL_idem (l : List Char) : pyStripL (pyStripL l) = pyStripL l := by
  apply pyStripL_eq_self
  · intro d hd
    cases hp : pyStripL l with
    | nil => rw [hp] at hd; cases hd
    | cons x y =>
      rw [hp] at hd
      cases hd
      exact pyStripL_head_false hp
  · intro d hd
    exact pyStripL_getLast_false hd

/-- Characterization of a successful title-group match. -/
theorem titleMatch_some {l ti : List Char} (h : titleMatch l = some ti) :
    pyStripL l ≠ [] ∧ ti.contains '\n' = false ∧ pyStripL ti = pyStripL l ∧
    (ti = pyStripL l ∨ ∃ c, pyIsSpace c = true ∧ ti = c :: pyStripL l) ∧
    2 ≤ ti.length := by
  simp only [titleMatch] at h
  by_cases hcond : ((pyStripL l).isEmpty || (pyStripL l).contains '\n') = true
  · rw [if_pos hcond] at h; cases h
  · rw [if_neg hcond] at h
    rw [Bool.or_eq_true, not_or] at hcond
    obtain ⟨hne, hnl⟩ := hcond
    have hne2 : pyStripL l ≠ [] := by
      intro h0
      exact hne (by rw [h0]; rfl)
    have hnl2 : (pyStripL l).contains '\n' = false := by
      simpa using hnl
    by_cases hlen : 2 ≤ (pyStripL l).length
    · rw [if_pos hlen] at h
      cases h
      exact ⟨hne2, hnl2, pyStripL_idem l, Or.inl rfl, hlen⟩
    · rw [if_neg hlen] at h
      cases hg : (l.takeWhile pyIsSpace).getLast? with
      | none => rw [hg] at h; cases h
      | some c =>
        rw [hg] at h
        simp only [] at h
        by_cases hcnl : c = '\n'
        · rw [if_pos hcnl] at h; cases h
        · rw [if_neg hcnl] at h
          cases h
          have hcws : pyIsSpace c = true := by
            obtain ⟨hx, hceq⟩ := List.mem_getLast?_eq_getLast
              (show c ∈ (l.takeWhile pyIsSpace).getLast? from hg)
            exact List.mem_takeWhile_imp (hceq ▸ List.getLast_mem hx)
          have hlen1 : (pyStripL l).length = 1 := by
            have hpos : 0 < (pyStripL l).length := List.length_pos.mpr hne2
            omega
          refine ⟨hne2, ?_, ?_, Or.inr ⟨c, hcws, rfl⟩, by simp [hlen1]⟩
          · simp only [List.contains_cons]
            rw [Bool.or_eq_false_iff]
            exact ⟨by simpa using fun hcon => hcnl hcon.symm, hnl2⟩
          · rw [pyStripL_cons_ws hcws, pyStripL_idem]

/-- A list with non-blank edges, no newline, and length at least two is
its own title group. -/
theorem titleMatch_eq_self {l : List Char}
    (hhead : ∀ c, l.head? = some c → pyIsSpace c = false)
    (hlast : ∀ c, l.getLast? = some c → pyIsSpace c = false)
    (hnl : l.contains '\n' = false) (hlen : 2 ≤ l.length) :
    titleMatch l = some l := by
  have hstrip : pyStripL l = l := pyStripL_eq_self hhead hlast
  unfold titleMatch
  simp only [hstrip, hnl, Bool.or_false, hlen, if_true]
  have hne : l.isEmpty = false := by
    cases l with
    | nil => simp at hlen
    | cons a t => rfl
  simp [hne]

/-- Characterization of a successful emoji backtrack: the emoji is one
of the (whitespace) run characters, and the title group matched some
tail with the same stripped core. -/
theorem contBack2_some {wsRev tail : List Char} {e : Char} {ti : List Char}
    (hws : ∀ c ∈ wsRev, pyIsSpace c = true)
    (h : contBack2 wsRev tail = some (e, ti)) :
    pyIsWordChar e = false ∧ pyIsSpace e = true ∧
    ∃ tail2, titleMatch tail2 = some ti ∧ pyStripL tail2 = pyStripL tail := by
  induction wsRev generalizing tail with
  | nil => cases h
  | cons c wsRev ih =>
    have hc : pyIsSpace c = true := hws c (by simp)
    unfold contBack2 at h
    split at h
    · obtain ⟨h1, h2, tail2, h3, h4⟩ := ih (fun d hd => hws d (by simp [hd])) h
      exact ⟨h1, h2, tail2, h3, by rw [h4, pyStripL_cons_ws hc]⟩
    · rename_i hword
      split at h
      · rename_i ti2 hti
        cases h
        exact ⟨by simpa using hword, hc, tail, hti, rfl⟩
      · obtain ⟨h1, h2, tail2, h3, h4⟩ := ih (fun d hd => hws d (by simp [hd])) h
        exact ⟨h1, h2, tail2, h3, by rw [h4, pyStripL_cons_ws hc]⟩

/-- Characterization of a successful emoji/title continuation match:
either the greedy case (emoji is the first non-blank character), or a
backtracked whitespace emoji — in which case the greedy case failed. -/
theorem contMatch_some {l : List Char} {e : Char} {ti : List Char}
    (h : contMatch l = some (e, ti)) :
    pyIsWordChar e = false ∧
    ((∃ rest, l.dropWhile pyIsSpace = e :: rest ∧ titleMatch rest = some ti) ∨
     (pyIsSpace e = true ∧
      (∃ tail2, titleMatch tail2 = some ti ∧ pyStripL tail2 = pyStripL l) ∧
      (match l.dropWhile pyIsSpace with
       | [] => True
       | c :: rest => pyIsWordChar c = true ∨ titleMatch rest = none))) := by
  unfold contMatch at h
  cases hcore : l.dropWhile pyIsSpace with
  | nil =>
    simp only [hcore] at h
    obtain ⟨h1, h2, tail2, h3, h4⟩ := contBack2_some
      (fun c hc => List.mem_takeWhile_imp (by simpa using List.mem_reverse.mp hc)) h
    refine ⟨h1, Or.inr ⟨h2, ⟨tail2, h3, ?_⟩, trivial⟩⟩
    rw [h4, ← pyStripL_dropWhile l, hcore]
  | cons c rest =>
    simp only [hcore] at h
    by_cases hword : pyIsWordChar c = true
    · simp only [hword, if_true] at h
      obtain ⟨h1, h2, tail2, h3, h4⟩ := contBack2_some
        (fun d hd => List.mem_takeWhile_imp (by simpa using List.mem_reverse.mp hd)) h
      refine ⟨h1, Or.inr ⟨h2, ⟨tail2, h3, ?_⟩, Or.inl hword⟩⟩
      rw [h4, ← pyStripL_dropWhile l, hcore]
    · have hwordf : pyIsWordChar c = false := by simpa using hword
      simp only [hwordf, Bool.false_eq_true, if_false] at h
      cases hti : titleMatch rest with
      | some ti2 =>
        simp only [hti] at h
        cases h
        exact ⟨hwordf, Or.inl ⟨rest, rfl, hti⟩⟩
      | none =>
        simp only [hti] at h
        obtain ⟨h1, h2, tail2, h3, h4⟩ := contBack2_some
          (fun d hd => List.mem_takeWhile_imp (by simpa using List.mem_reverse.mp hd)) h
        refine ⟨h1, Or.inr ⟨h2, ⟨tail2, h3, ?_⟩, Or.inr hti⟩⟩
        rw [h4, ← pyStripL_dropWhile l, hcore]

theorem char_ne_of_toNat_ne {c d : Char} (h : c.toNat ≠ d.toNat) : c ≠ d :=
  fun he => h (he ▸ rfl)

/-- Numeric bounds extracted from membership in the pictographic
ranges. -/
theorem inEmojiRanges_bound {c : Char} (h : inEmojiRanges c = true) :
    0x2600 ≤ c.toNat := by
  unfold inEmojiRanges at h
  simp only [Bool.or_eq_true, Bool.and_eq_true, decide_eq_true_eq] at h
  omega

theorem inEmojiRanges_not_ws {c : Char} (h : inEmojiRanges c = true) :
    pyIsSpace c = false := by
  have hb := inEmojiRanges_bound h
  unfold pyIsSpace
  simp only [Bool.or_eq_false_iff, decide_eq_false_iff_not]
  omega

theorem inEmojiRanges_not_word {c : Char} (h : inEmojiRanges c = true) :
    pyIsWordChar c = false := by
  unfold inEmojiRanges at h
  simp only [Bool.or_eq_true, Bool.and_eq_true, decide_eq_true_eq] at h
  unfold pyIsWordChar
  simp only [Bool.or_eq_false_iff, Bool.and_eq_false_iff, decide_eq_false_iff_not,
    Bool.not_eq_true, decide_eq_true_eq]
  omega

theorem inEmojiRanges_not_inv {c : Char} (h : inEmojiRanges c = true) :
    inInvisibleSet c = false := by
  unfold inEmojiRanges at h
  simp only [Bool.or_eq_true, Bool.and_eq_true, decide_eq_true_eq] at h
  unfold inInvisibleSet
  simp only [Bool.or_eq_false_iff, decide_eq_false_iff_not]
  omega

theorem inEmojiRanges_ne_newline {c : Char} (h : inEmojiRanges c = true) :
    c ≠ '\n' :=
  char_ne_of_toNat_ne (by
    have hb := inEmojiRanges_bound h
    intro hc
    rw [hc] at hb
    exact absurd hb (by decide))

theorem inEmojiRanges_ne_star {c : Char} (h : inEmojiRanges c = true) :
    c ≠ '*' :=
  char_ne_of_toNat_ne (by
    have hb := inEmojiRanges_bound h
    intro hc
    rw [hc] at hb
    exact absurd hb (by decide))

theorem pyIsWordChar_bounds {c : Char} (h : pyIsWordChar c = true) :
    48 ≤ c.toNat ∧ c.toNat ≤ 0xFF := by
  unfold pyIsWordChar at h
  simp only [Bool.or_eq_true, Bool.and_eq_true, decide_eq_true_eq,
    bne_iff_ne, ne_eq] at h
  omega

theorem pyIsWordChar_not_ws {c : Char} (h : pyIsWordChar c = true) :
    pyIsSpace c = false := by
  have hb := pyIsWordChar_bounds h
  unfold pyIsSpace
  simp only [Bool.or_eq_false_iff, decide_eq_false_iff_not]
  omega

theorem pyIsWordChar_not_range {c : Char} (h : pyIsWordChar c = true) :
    inEmojiRanges c = false := by
  have hb := pyIsWordChar_bounds h
  unfold inEmojiRanges
  simp only [Bool.or_eq_false_iff, Bool.and_eq_false_iff, decide_eq_false_iff_not,
    Bool.not_eq_true, decide_eq_true_eq]
  omega

theorem pyIsWordChar_not_inv {c : Char} (h : pyIsWordChar c = true) :
    inInvisibleSet c = false := by
  have hb := pyIsWordChar_bounds h
  unfold inInvisibleSet
  simp only [Bool.or_eq_false_iff, decide_eq_false_iff_not]
  omega

theorem pyIsWordChar_ne_star {c : Char} (h : pyIsWordChar c = true) : c ≠ '*' :=
  char_ne_of_toNat_ne (by have := pyIsWordChar_bounds h; intro hc; rw [hc] at this
                          exact absurd this (by decide))

theorem pyIsSpace_not_word {c : Char} (h : pyIsSpace c = true) :
    pyIsWordChar c = false := by
  unfold pyIsSpace at h
  simp only [Bool.or_eq_true, decide_eq_true_eq] at h
  unfold pyIsWordChar
  simp only [Bool.or_eq_false_iff, Bool.and_eq_false_iff, decide_eq_false_iff_not,
    Bool.not_eq_true, decide_eq_true_eq]
  omega

theorem isAsciiUpper_not_paren {c : Char} (h : isAsciiUpper c = true) :
    c ≠ '(' ∧ c ≠ ')' := by
  unfold isAsciiUpper at h
  simp only [Bool.and_eq_true, decide_eq_true_eq] at h
  constructor <;>
    exact char_ne_of_toNat_ne (by intro hc; rw [hc] at h; exact absurd h (by decide))

theorem isAsciiDigit_not_paren {c : Char} (h : isAsciiDigit c = true) :
    c ≠ '(' ∧ c ≠ ')' := by
  unfold isAsciiDigit at h
  simp only [Bool.and_eq_true, decide_eq_true_eq] at h
  constructor <;>
    exact char_ne_of_toNat_ne (by intro hc; rw [hc] at h; exact absurd h (by decide))

theorem charContains_iff {a : Char} {l : List Char} : l.contains a = true ↔ a ∈ l := by
  simp [List.elem_iff]

theorem charContains_false {a : Char} {l : List Char} (h : a ∉ l) :
    l.contains a = false := by
  rw [← Bool.not_eq_true, charContains_iff]
  exact h

theorem not_mem_of_contains_false {a : Char} {l : List Char}
    (h : l.contains a = false) : a ∉ l := by
  intro hm
  rw [charContains_iff.mpr hm] at h
  cases h

/-- The greedy continuation case: a non-blank non-word emoji followed
by glyphs and a well-formed title. -/
theorem contMatch_caseA {e0 : Char} {L text : List Char}
    (he0ws : pyIsSpace e0 = false) (he0w : pyIsWordChar e0 = false)
    (hL : ∀ c ∈ L, inEmojiRanges c = true)
    (thead : ∀ c, text.head? = some c → pyIsSpace c = false)
    (tlast : ∀ c, text.getLast? = some c → pyIsSpace c = false)
    (tnl : text.contains '\n' = false)
    (tlen : 2 ≤ text.length) :
    contMatch (e0 :: (L ++ text)) = some (e0, L ++ text) := by
  have tne : text ≠ [] := by
    intro h0; rw [h0] at tlen; simp at tlen
  have hLtHead : ∀ c, (L ++ text).head? = some c → pyIsSpace c = false := by
    intro c hc
    cases L with
    | nil => exact thead c hc
    | cons a L2 =>
      simp only [List.cons_append, List.head?_cons, Option.some.injEq] at hc
      exact hc ▸ inEmojiRanges_not_ws (hL a (by simp))
  have hLtLast : ∀ c, (L ++ text).getLast? = some c → pyIsSpace c = false := by
    intro c hc
    rw [getLast?_append_right tne] at hc
    exact tlast c hc
  have hLtNl : (L ++ text).contains '\n' = false := by
    apply charContains_false
    intro hm
    rcases List.mem_append.mp hm with hm | hm
    · exact inEmojiRanges_ne_newline (hL _ hm) rfl
    · exact not_mem_of_contains_false tnl hm
  have hLtLen : 2 ≤ (L ++ text).length := by
    rw [List.length_append]; omega
  have htm : titleMatch (L ++ text) = some (L ++ text) :=
    titleMatch_eq_self hLtHead hLtLast hLtNl hLtLen
  unfold contMatch
  have hdw : (e0 :: (L ++ text)).dropWhile pyIsSpace = e0 :: (L ++ text) :=
    dropWhile_eq_self_of_head (by intro c hc; cases hc; exact he0ws)
  simp only [hdw, he0w, Bool.false_eq_true, if_false, htm]

/-- The backtracked continuation case: a whitespace emoji directly
followed by a title that begins with a word character. -/
theorem contMatch_caseB {e0 : Char} {text : List Char}
    (he0ws : pyIsSpace e0 = true)
    (thead_word : ∀ c, text.head? = some c → pyIsWordChar c = true)
    (tlast : ∀ c, text.getLast? = some c → pyIsSpace c = false)
    (tnl : text.contains '\n' = false)
    (tlen : 2 ≤ text.length) :
    contMatch (e0 :: text) = some (e0, text) := by
  have tne : text ≠ [] := by
    intro h0; rw [h0] at tlen; simp at tlen
  have thead : ∀ c, text.head? = some c → pyIsSpace c = false :=
    fun c hc => pyIsWordChar_not_ws (thead_word c hc)
  have htm : titleMatch text = some text :=
    titleMatch_eq_self thead tlast tnl tlen
  unfold contMatch
  have hdw : (e0 :: text).dropWhile pyIsSpace = text := by
    rw [List.dropWhile_cons, he0ws]
    simp only [if_true]
    exact dropWhile_eq_self_of_head thead
  have htw : (e0 :: text).takeWhile pyIsSpace = [e0] := by
    rw [List.takeWhile_cons, he0ws]
    simp only [if_true]
    cases htx : text with
    | nil => rfl
    | cons a t2 =>
      rw [List.takeWhile_cons, thead a (by rw [htx]; rfl)]
      simp
  simp only [hdw, htw]
  cases htx : text with
  | nil => exact absurd htx tne
  | cons a t2 =>
    have hw : pyIsWordChar a = true := thead_word a (by rw [htx]; rfl)
    simp only [hw, if_true, List.reverse_singleton]
    unfold contBack2
    rw [pyIsSpace_not_word he0ws]
    simp only [Bool.false_eq_true, if_false]
    rw [← htx, htm]

theorem dropTrail_cons_of_ne {p : Char → Bool} {a : Char} (l : List Char)
    (ha : p a = false) : dropTrailWhile p (a :: l) = a :: dropTrailWhile p l := by
  unfold dropTrailWhile
  rw [show (a :: l).reverse = l.reverse ++ [a] by simp, List.dropWhile_append]
  by_cases he : (l.reverse.dropWhile p).isEmpty = true
  · rw [if_pos he]
    rw [List.isEmpty_iff] at he
    rw [he, List.dropWhile_cons, ha]
    simp
  · rw [if_neg he]
    simp

theorem dropTrail_append_right {p : Char → Bool} (u : List Char) {v : List Char}
    (hv : dropTrailWhile p v ≠ []) :
    dropTrailWhile p (u ++ v) = u ++ dropTrailWhile p v := by
  unfold dropTrailWhile at *
  rw [List.reverse_append, List.dropWhile_append]
  have he : (v.reverse.dropWhile p).isEmpty = false := by
    cases h0 : v.reverse.dropWhile p with
    | nil => exact absurd (by rw [h0]; rfl) hv
    | cons a t => rfl
  rw [he]
  simp

theorem dropTrail_eq_nil_iff {p : Char → Bool} {l : List Char} :
    dropTrailWhile p l = [] ↔ ∀ c ∈ l, p c = true := by
  unfold dropTrailWhile
  rw [List.reverse_eq_nil_iff, List.dropWhile_eq_nil_iff]
  constructor
  · intro h c hc
    exact h c (List.mem_reverse.mpr hc)
  · intro h c hc
    exact h c (List.mem_reverse.mp hc)

theorem head?_of_prefixOf {l₁ l₂ : List Char} (h : l₁ <+: l₂) (hne : l₁ ≠ []) :
    l₂.head? = l₁.head? := by
  obtain ⟨r, hr⟩ := h
  cases l₁ with
  | nil => exact absurd rfl hne
  | cons a t => rw [← hr]; rfl

theorem dropTrail_head {p : Char → Bool} {l : List Char}
    (h : dropTrailWhile p l ≠ []) : l.head? = (dropTrailWhile p l).head? :=
  head?_of_prefixOf (dropTrailWhile_prefixOf p l) h

/-- When the head is kept by the leading strip, `pyStripL` preserves it
as long as the result is non-empty. -/
theorem pyStripL_head_eq {l : List Char} {c : Char} (hh : l.head? = some c)
    (hc : pyIsSpace c = false) (hne : pyStripL l ≠ []) :
    (pyStripL l).head? = some c := by
  unfold pyStripL at *
  rw [dropWhile_eq_self_of_head (fun d hd => by rw [hh] at hd; cases hd; exact hc)] at *
  rw [← dropTrail_head hne, hh]

theorem pyStripL_cons_eq {c : Char} {l : List Char} (hc : pyIsSpace c = false) :
    pyStripL (c :: l) = c :: dropTrailWhile pyIsSpace l := by
  unfold pyStripL
  rw [List.dropWhile_cons, hc]
  simp only [Bool.false_eq_true, if_false]
  exact dropTrail_cons_of_ne l hc

/-- Characterization of a failed title-group match. -/
theorem titleMatch_none {l : List Char} (h : titleMatch l = none) :
    pyStripL l = [] ∨ (pyStripL l).contains '\n' = true ∨
    ((pyStripL l).length = 1 ∧
      (l.takeWhile pyIsSpace = [] ∨ (l.takeWhile pyIsSpace).getLast? = some '\n')) := by
  simp only [titleMatch] at h
  by_cases hcond : ((pyStripL l).isEmpty || (pyStripL l).contains '\n') = true
  · rcases Bool.or_eq_true_iff.mp hcond with hc | hc
    · exact Or.inl (List.isEmpty_iff.mp hc)
    · exact Or.inr (Or.inl hc)
  · rw [if_neg hcond] at h
    rw [Bool.or_eq_true, not_or] at hcond
    obtain ⟨hne, hnl⟩ := hcond
    by_cases hlen : 2 ≤ (pyStripL l).length
    · rw [if_pos hlen] at h; cases h
    · rw [if_neg hlen] at h
      have hpos : 0 < (pyStripL l).length := by
        rw [List.length_pos]
        intro h0
        exact hne (by rw [h0]; rfl)
      have hlen1 : (pyStripL l).length = 1 := by omega
      refine Or.inr (Or.inr ⟨hlen1, ?_⟩)
      cases hg : (l.takeWhile pyIsSpace).getLast? with
      | none => exact Or.inl (List.getLast?_eq_none_iff.mp hg)
      | some c =>
        rw [hg] at h
        simp only [] at h
        by_cases hcnl : c = '\n'
        · exact Or.inr (congrArg some hcnl)
        · rw [if_neg hcnl] at h; cases h

/-- Shape of a list accepted by the id-group check. -/
theorem idCheck_shape {l : List Char} (h : idCheck l = true) :
    ∃ lc d1 d2 d3 d4 d5 d6 r,
      l = '(' :: lc :: d1 :: d2 :: '-' :: d3 :: d4 :: '-' :: d5 :: d6 :: ')' :: r ∧
      isAsciiUpper lc = true ∧ isAsciiDigit d1 = true ∧ isAsciiDigit d2 = true ∧
      isAsciiDigit d3 = true ∧ isAsciiDigit d4 = true ∧ isAsciiDigit d5 = true ∧
      isAsciiDigit d6 = true := by
  unfold idCheck at h
  split at h
  · rename_i lc d1 d2 d3 d4 d5 d6 r
    simp only [Bool.and_eq_true] at h
    obtain ⟨⟨⟨⟨⟨⟨h1, h2⟩, h3⟩, h4⟩, h5⟩, h6⟩, h7⟩ := h
    exact ⟨lc, d1, d2, d3, d4, d5, d6, r, rfl, h1, h2, h3, h4, h5, h6, h7⟩
  · cases h

/-- The id-group check fails whenever the head is not an opening
parenthesis. -/
theorem idCheck_false_of_head {c : Char} (l : List Char) (hc : c ≠ '(') :
    idCheck (c :: l) = false := by
  cases h : idCheck (c :: l) with
  | false => rfl
  | true =>
    obtain ⟨lc, d1, d2, d3, d4, d5, d6, r, heq, _⟩ := idCheck_shape h
    cases heq
    exact absurd rfl hc

/-- `strip("()")` on a full id group returns the bare id. -/
theorem stripParens_id {lc d1 d2 d3 d4 d5 d6 : Char}
    (hu : isAsciiUpper lc = true) (h6 : isAsciiDigit d6 = true) :
    stripParens ['(', lc, d1, d2, '-', d3, d4, '-', d5, d6, ')'] =
      [lc, d1, d2, '-', d3, d4, '-', d5, d6] := by
  obtain ⟨hu1, hu2⟩ := isAsciiUpper_not_paren hu
  obtain ⟨h61, h62⟩ := isAsciiDigit_not_paren h6
  have hlc : (decide (lc = '(') || decide (lc = ')')) = false := by
    simp [hu1, hu2]
  have hd6 : (decide (d6 = '(') || decide (d6 = ')')) = false := by
    simp [h61, h62]
  unfold stripParens
  rw [show List.dropWhile (fun c => c = '(' || c = ')')
        ['(', lc, d1, d2, '-', d3, d4, '-', d5, d6, ')']
      = [lc, d1, d2, '-', d3, d4, '-', d5, d6, ')'] from by
    rw [List.dropWhile_cons, if_pos (by decide), List.dropWhile_cons, hlc]
    simp]
  unfold dropTrailWhile
  rw [show ([lc, d1, d2, '-', d3, d4, '-', d5, d6, ')'] : List Char).reverse
      = [')', d6, d5, '-', d4, d3, '-', d2, d1, lc] from by simp]
  rw [List.dropWhile_cons, if_pos (by decide), List.dropWhile_cons, hd6]
  simp

/-- A successful leading-emoji split: the lead is the maximal
emoji-range run and the remainder descends from the input. -/
theorem leadingEmojiSplit_some {t lead rest : List Char}
    (h : leadingEmojiSplit t = some (lead, rest)) :
    lead = t.takeWhile inEmojiRanges ∧ List.Sublist rest t := by
  have hrem : List.Sublist ((t.drop (t.takeWhile inEmojiRanges).length).dropWhile pyIsSpace) t :=
    (List.dropWhile_sublist _).trans (List.drop_sublist _ _)
  simp only [leadingEmojiSplit] at h
  split at h
  · cases h
  · split at h
    · split at h
      · simp only [Option.some.injEq, Prod.mk.injEq] at h
        obtain ⟨h1, h2⟩ := h
        refine ⟨h1.symm, ?_⟩
        rw [← h2]
        exact (List.dropLast_sublist _).trans hrem
      · cases h
    · simp only [Option.some.injEq, Prod.mk.injEq] at h
      obtain ⟨h1, h2⟩ := h
      refine ⟨h1.symm, ?_⟩
      rw [← h2]
      exact hrem

/-- Structural facts about the post-processed emoji and text: the emoji
field extends the matched emoji with range glyphs only, and the final
text is a star-free descendant of the stripped title group with
non-blank edges. -/
theorem postProcessTitle_facts (e0 : Char) (t : List Char) :
    (∃ L, (postProcessTitle e0 t).1 = e0 :: L ∧ ∀ c ∈ L, inEmojiRanges c = true) ∧
    List.Sublist (postProcessTitle e0 t).2 (pyStripL t) ∧
    (postProcessTitle e0 t).2.contains '*' = false ∧
    (∀ c, (postProcessTitle e0 t).2.head? = some c → pyIsSpace c = false) ∧
    (∀ c, (postProcessTitle e0 t).2.getLast? = some c → pyIsSpace c = false) := by
  simp only [postProcessTitle]
  cases hsplit : leadingEmojiSplit (pyStripL t) with
  | none =>
    simp only []
    by_cases hstar : (pyStripL t).contains '*' = true
    · simp only [hstar, if_true]
      set u := pyStripL ((pyStripL t).filter (fun c => c ≠ '*')) with hu
      have husub : List.Sublist u (pyStripL t) :=
        (pyStripL_sublist _).trans (List.filter_sublist _)
      have hustar : u.contains '*' = false := by
        apply charContains_false
        intro hm
        have := List.mem_filter.mp ((pyStripL_sublist _).subset hm)
        simp at this
      by_cases hue : u.isEmpty = true
      · rw [List.isEmpty_iff] at hue
        simp only [hue]
        refine ⟨⟨[], rfl, by simp⟩, by simp, by simp, ?_, ?_⟩ <;>
          · intro c hc; simp at hc
      · have hne : (!u.isEmpty) = true := by
          cases h0 : u.isEmpty with
          | true => exact absurd h0 hue
          | false => rfl
        simp only [hne, if_true]
        refine ⟨⟨[], rfl, by simp⟩, ?_, ?_, ?_, ?_⟩
        · exact ((pyStripL_sublist _).trans ((dropTrailWhile_sublist _ _).trans
            (List.dropWhile_sublist _))).trans husub
        · apply charContains_false
          intro hm
          exact not_mem_of_contains_false hustar
            (((pyStripL_sublist _).trans ((dropTrailWhile_sublist _ _).trans
              (List.dropWhile_sublist _))).subset hm)
        · intro c hc
          cases hp : pyStripL (dropTrailWhile inInvisibleSet (u.dropWhile inInvisibleSet)) with
          | nil => rw [hp] at hc; cases hc
          | cons x y => rw [hp] at hc; cases hc; exact pyStripL_head_false hp
        · intro c hc
          exact pyStripL_getLast_false hc
    · have hstar2 : (pyStripL t).contains '*' = false := by
        rw [← Bool.not_eq_true]; exact hstar
      simp only [hstar2, Bool.false_eq_true, if_false]
      by_cases hue : (pyStripL t).isEmpty = true
      · rw [List.isEmpty_iff] at hue
        simp only [hue]
        refine ⟨⟨[], rfl, by simp⟩, by simp, by simp, ?_, ?_⟩ <;>
          · intro c hc; simp at hc
      · have hne : (!(pyStripL t).isEmpty) = true := by
          cases h0 : (pyStripL t).isEmpty with
          | true => exact absurd h0 hue
          | false => rfl
        simp only [hne, if_true]
        refine ⟨⟨[], rfl, by simp⟩, ?_, ?_, ?_, ?_⟩
        · exact (pyStripL_sublist _).trans ((dropTrailWhile_sublist _ _).trans
            (List.dropWhile_sublist _))
        · apply charContains_false
          intro hm
          exact not_mem_of_contains_false hstar2
            (((pyStripL_sublist _).trans ((dropTrailWhile_sublist _ _).trans
              (List.dropWhile_sublist _))).subset hm)
        · intro c hc
          cases hp : pyStripL (dropTrailWhile inInvisibleSet ((pyStripL t).dropWhile inInvisibleSet)) with
          | nil => rw [hp] at hc; cases hc
          | cons x y => rw [hp] at hc; cases hc; exact pyStripL_head_false hp
        · intro c hc
          exact pyStripL_getLast_false hc
  | some pr =>
    obtain ⟨lead, rest⟩ := pr
    obtain ⟨hlead, hrest⟩ := leadingEmojiSplit_some hsplit
    have hrest2 : List.Sublist (pyStripL rest) (pyStripL t) :=
      (pyStripL_sublist _).trans hrest
    have hLmem : ∀ c ∈ lead, inEmojiRanges c = true := by
      intro c hc
      rw [hlead] at hc
      exact List.mem_takeWhile_imp hc
    simp only []
    by_cases hstar : (pyStripL rest).contains '*' = true
    · simp only [hstar, if_true]
      set u := pyStripL ((pyStripL rest).filter (fun c => c ≠ '*')) with hu
      have husub : List.Sublist u (pyStripL t) :=
        ((pyStripL_sublist _).trans (List.filter_sublist _)).trans hrest2
      have hustar : u.contains '*' = false := by
        apply charContains_false
        intro hm
        have := List.mem_filter.mp ((pyStripL_sublist _).subset hm)
        simp at this
      by_cases hue : u.isEmpty = true
      · rw [List.isEmpty_iff] at hue
        simp only [hue]
        refine ⟨⟨lead, rfl, hLmem⟩, by simp, by simp, ?_, ?_⟩ <;>
          · intro c hc; simp at hc
      · have hne : (!u.isEmpty) = true := by
          cases h0 : u.isEmpty with
          | true => exact absurd h0 hue
          | false => rfl
        simp only [hne, if_true]
        refine ⟨⟨lead, rfl, hLmem⟩, ?_, ?_, ?_, ?_⟩
        · exact ((pyStripL_sublist _).trans ((dropTrailWhile_sublist _ _).trans
            (List.dropWhile_sublist _))).trans husub
        · apply charContains_false
          intro hm
          exact not_mem_of_contains_false hustar
            (((pyStripL_sublist _).trans ((dropTrailWhile_sublist _ _).trans
              (List.dropWhile_sublist _))).subset hm)
        · intro c hc
          cases hp : pyStripL (dropTrailWhile inInvisibleSet (u.dropWhile inInvisibleSet)) with
          | nil => rw [hp] at hc; cases hc
          | cons x y => rw [hp] at hc; cases hc; exact pyStripL_head_false hp
        · intro c hc
          exact pyStripL_getLast_false hc
    · have hstar2 : (pyStripL rest).contains '*' = false := by
        rw [← Bool.not_eq_true]; exact hstar
      simp only [hstar2, Bool.false_eq_true, if_false]
      by_cases hue : (pyStripL rest).isEmpty = true
      · rw [List.isEmpty_iff] at hue
        simp only [hue]
        refine ⟨⟨lead, rfl, hLmem⟩, by simp, by simp, ?_, ?_⟩ <;>
          · intro c hc; simp at hc
      · have hne : (!(pyStripL rest).isEmpty) = true := by
          cases h0 : (pyStripL rest).isEmpty with
          | true => exact absurd h0 hue
          | false => rfl
        simp only [hne, if_true]
        refine ⟨⟨lead, rfl, hLmem⟩, ?_, ?_, ?_, ?_⟩
        · exact ((pyStripL_sublist _).trans ((dropTrailWhile_sublist _ _).trans
            (List.dropWhile_sublist _))).trans hrest2
        · apply charContains_false
          intro hm
          exact not_mem_of_contains_false hstar2
            (((pyStripL_sublist _).trans ((dropTrailWhile_sublist _ _).trans
              (List.dropWhile_sublist _))).subset hm)
        · intro c hc
          cases hp : pyStripL (dropTrailWhile inInvisibleSet ((pyStripL rest).dropWhile inInvisibleSet)) with
          | nil => rw [hp] at hc; cases hc
          | cons x y => rw [hp] at hc; cases hc; exact pyStripL_head_false hp
        · intro c hc
          exact pyStripL_getLast_false hc

/-- When the stripped title group begins with a word character, the
glyph-move step is skipped and the word character survives as the head
of the final text. -/
theorem postProcessTitle_word_head {e0 : Char} {t : List Char} {c : Char}
    (hh : (pyStripL t).head? = some c) (hw : pyIsWordChar c = true)
    (hne : (postProcessTitle e0 t).2 ≠ []) :
    (postProcessTitle e0 t).1 = [e0] ∧ (postProcessTitle e0 t).2.head? = some c := by
  have hcws : pyIsSpace c = false := pyIsWordChar_not_ws hw
  have hcr : inEmojiRanges c = false := pyIsWordChar_not_range hw
  have hci : inInvisibleSet c = false := pyIsWordChar_not_inv hw
  have hcstar : c ≠ '*' := pyIsWordChar_ne_star hw
  obtain ⟨tl, htl⟩ : ∃ tl, pyStripL t = c :: tl := by
    cases hp : pyStripL t with
    | nil => rw [hp] at hh; cases hh
    | cons x y =>
      rw [hp] at hh
      cases hh
      exact ⟨y, rfl⟩
  have hsplit : leadingEmojiSplit (pyStripL t) = none := by
    unfold leadingEmojiSplit
    rw [htl, List.takeWhile_cons, hcr]
    simp
  revert hne
  simp only [postProcessTitle, hsplit]
  rw [htl]
  by_cases hstar : (c :: tl).contains '*' = true
  · simp only [hstar, if_true]
    have hfil : (c :: tl).filter (fun d => d ≠ '*') = c :: tl.filter (fun d => d ≠ '*') := by
      rw [List.filter_cons]
      simp [hcstar]
    rw [hfil, pyStripL_cons_eq hcws]
    intro hne
    refine ⟨by trivial, ?_⟩
    set v := dropTrailWhile pyIsSpace (tl.filter (fun d => d ≠ '*')) with hv
    have hvh : (c :: v).head? = some c := rfl
    have hdwi : (c :: v).dropWhile inInvisibleSet = c :: v := by
      rw [List.dropWhile_cons, hci]
      simp
    have hne2 : (!(c :: v).isEmpty) = true := rfl
    simp only [hne2, if_true, hdwi] at hne ⊢
    have hdt : (dropTrailWhile inInvisibleSet (c :: v)).head? = some c := by
      cases hdd : dropTrailWhile inInvisibleSet (c :: v) with
      | nil =>
        exfalso
        apply hne
        unfold pyStripL
        rw [hdd]
        rfl
      | cons x y =>
        have hpp := head?_of_prefixOf (dropTrailWhile_prefixOf inInvisibleSet (c :: v))
          (by rw [hdd]; intro h0; cases h0)
        rw [hdd] at hpp
        exact hpp.symm
    exact pyStripL_head_eq hdt hcws hne
  · have hstar2 : (c :: tl).contains '*' = false := by
      rw [← Bool.not_eq_true]; exact hstar
    simp only [hstar2, Bool.false_eq_true, if_false]
    intro hne
    refine ⟨by trivial, ?_⟩
    have hdwi : (c :: tl).dropWhile inInvisibleSet = c :: tl := by
      rw [List.dropWhile_cons, hci]
      simp
    have hne2 : (!(c :: tl).isEmpty) = true := rfl
    simp only [hne2, if_true, hdwi] at hne ⊢
    have hdt : (dropTrailWhile inInvisibleSet (c :: tl)).head? = some c := by
      cases hdd : dropTrailWhile inInvisibleSet (c :: tl) with
      | nil =>
        exfalso
        apply hne
        unfold pyStripL
        rw [hdd]
        rfl
      | cons x y =>
        have hpp := head?_of_prefixOf (dropTrailWhile_prefixOf inInvisibleSet (c :: tl))
          (by rw [hdd]; intro h0; cases h0)
        rw [hdd] at hpp
        exact hpp.symm
    exact pyStripL_head_eq hdt hcws hne

/-- Forward computation: on a reconstructed title group (range glyphs
followed by a well-behaved text) the post-processing returns the glyphs
to the emoji field and leaves the text unchanged. -/
theorem postProcessTitle_noop {e0 : Char} {L T : List Char}
    (hL : ∀ c ∈ L, inEmojiRanges c = true)
    (hTne : T ≠ [])
    (thead : ∀ c, T.head? = some c → pyIsSpace c = false)
    (tlast : ∀ c, T.getLast? = some c → pyIsSpace c = false)
    (tnl : T.contains '\n' = false)
    (tstar : T.contains '*' = false)
    (theadR : ∀ c, T.head? = some c → inEmojiRanges c = false)
    (theadI : ∀ c, T.head? = some c → inInvisibleSet c = false)
    (tlastI : ∀ c, T.getLast? = some c → inInvisibleSet c = false) :
    postProcessTitle e0 (L ++ T) = (e0 :: L, T) := by
  have hstrip : pyStripL (L ++ T) = L ++ T := by
    apply pyStripL_eq_self
    · intro c hc
      cases L with
      | nil => exact thead c hc
      | cons a L2 =>
        simp only [List.cons_append, List.head?_cons, Option.some.injEq] at hc
        exact hc ▸ inEmojiRanges_not_ws (hL a (by simp))
    · intro c hc
      rw [getLast?_append_right hTne] at hc
      exact tlast c hc
  have htake : (L ++ T).takeWhile inEmojiRanges = L :=
    takeWhile_append_all hL (fun c hc => theadR c hc)
  have hTstrip : pyStripL T = T := pyStripL_eq_self thead tlast
  have hTdw : T.dropWhile pyIsSpace = T := dropWhile_eq_self_of_head thead
  have hstarstep : (if T.contains '*' = true then
      pyStripL (T.filter (fun c => c ≠ '*')) else T) = T := by
    rw [tstar]
    simp
  have hTisEmpty : T.isEmpty = false := by
    cases T with
    | nil => exact absurd rfl hTne
    | cons a t2 => rfl
  have hinvstep : (if (!T.isEmpty) = true then
      pyStripL (dropTrailWhile inInvisibleSet (T.dropWhile inInvisibleSet)) else T) = T := by
    rw [dropWhile_eq_self_of_head theadI, dropTrailWhile_eq_self tlastI, hTstrip]
    simp
  cases L with
  | nil =>
    rw [List.nil_append] at hstrip htake ⊢
    have hsplit : leadingEmojiSplit T = none := by
      unfold leadingEmojiSplit
      rw [htake]
      simp
    simp only [postProcessTitle, hstrip, hsplit, hstarstep, hinvstep]
  | cons a L2 =>
    have hsplit : leadingEmojiSplit ((a :: L2) ++ T) = some (a :: L2, T) := by
      have hlen : ((a :: L2) ++ T).drop (a :: L2).length = T := List.drop_left _ _
      simp only [leadingEmojiSplit, htake, List.isEmpty_cons, Bool.false_eq_true, if_false]
      rw [hlen, hTdw]
      simp only [tnl, Bool.false_eq_true, if_false]
    simp only [postProcessTitle, hstrip, hsplit, hTstrip, hstarstep, hinvstep]
    simp

/-- Soundness of the lazy-`freq` scan: a successful match returns a
non-empty, whitespace-free `freq` group, an id group cut from a
position passing the id check, and a successful continuation match. -/
theorem scanTitle_sound {freqRev rest : List Char}
    {F idg : List Char} {e0 : Char} {tg : List Char}
    (hfr : freqRev ≠ []) (hfrws : ∀ c ∈ freqRev, pyIsSpace c = false)
    (h : scanTitle freqRev rest = some (F, idg, e0, tg)) :
    F ≠ [] ∧ (∀ c ∈ F, pyIsSpace c = false) ∧
    ∃ aw, idCheck aw = true ∧ idg = aw.take 11 ∧
      contMatch (aw.drop 11) = some (e0, tg) := by
  induction rest generalizing freqRev with
  | nil =>
    simp only [scanTitle] at h
    cases h
  | cons c rest2 ih =>
    simp only [scanTitle] at h
    by_cases hid : idCheck ((c :: rest2).drop ((c :: rest2).takeWhile pyIsSpace).length) = true
    · rw [if_pos hid] at h
      cases hcm : contMatch (((c :: rest2).drop ((c :: rest2).takeWhile pyIsSpace).length).drop 11) with
      | none =>
        rw [hcm] at h
        simp only [] at h
        by_cases hws : pyIsSpace c = true
        · rw [if_pos hws] at h; cases h
        · rw [if_neg hws] at h
          exact ih (by intro h0; cases h0)
            (by
              intro d hd
              rcases List.mem_cons.mp hd with hd | hd
              · rw [hd]; rw [← Bool.not_eq_true]; exact hws
              · exact hfrws d hd) h
      | some pr =>
        obtain ⟨e, ti⟩ := pr
        rw [hcm] at h
        simp only [Option.some.injEq, Prod.mk.injEq] at h
        obtain ⟨h1, h2, h3, h4⟩ := h
        refine ⟨?_, ?_, _, hid, h2.symm, by rw [hcm, h3, h4]⟩
        · rw [← h1]
          intro h0
          exact hfr (List.reverse_eq_nil_iff.mp h0)
        · intro c2 hc
          rw [← h1] at hc
          exact hfrws c2 (List.mem_reverse.mp hc)
    · rw [if_neg hid] at h
      simp only [] at h
      by_cases hws : pyIsSpace c = true
      · rw [if_pos hws] at h; cases h
      · rw [if_neg hws] at h
        exact ih (by intro h0; cases h0)
          (by
            intro d hd
            rcases List.mem_cons.mp hd with hd | hd
            · rw [hd]; rw [← Bool.not_eq_true]; exact hws
            · exact hfrws d hd) h

/-- Forward computation of the lazy-`freq` scan: over a run of
non-blank characters containing no opening parenthesis, the scan
accumulates them all and matches exactly at the id group. -/
theorem scanTitle_run {F2 tail : List Char} {e0 : Char} {ti : List Char}
    (freqRev : List Char)
    (hF2ws : ∀ c ∈ F2, pyIsSpace c = false) (hF2p : '(' ∉ F2)
    (hid : idCheck tail = true)
    (hcm : contMatch (tail.drop 11) = some (e0, ti)) :
    scanTitle freqRev (F2 ++ tail) = some (freqRev.reverse ++ F2, tail.take 11, e0, ti) := by
  induction F2 generalizing freqRev with
  | nil =>
    obtain ⟨lc, d1, d2, d3, d4, d5, d6, r, heq, hrest⟩ := idCheck_shape hid
    subst heq
    have htw : ('(' :: lc :: d1 :: d2 :: '-' :: d3 :: d4 :: '-' :: d5 :: d6 :: ')' :: r).takeWhile
        pyIsSpace = [] := by
      rw [List.takeWhile_cons]
      simp [pyIsSpace]
    simp only [List.nil_append, scanTitle, htw, List.length_nil, List.drop_zero, hid, if_true,
      hcm, List.append_nil]
  | cons c F2' ih =>
    have hcws : pyIsSpace c = false := hF2ws c (by simp)
    have hcp : c ≠ '(' := by
      intro h0
      exact hF2p (by rw [← h0]; simp)
    have htw : (c :: (F2' ++ tail)).takeWhile pyIsSpace = [] := by
      rw [List.takeWhile_cons, hcws]
      simp
    have hidf : idCheck (c :: (F2' ++ tail)) = false := idCheck_false_of_head _ hcp
    simp only [List.cons_append, scanTitle, htw, List.length_nil, List.drop_zero, hidf,
      Bool.false_eq_true, if_false, hcws]
    rw [ih (c :: freqRev) (fun d hd => hF2ws d (by simp [hd])) (fun hm => hF2p (by simp [hm]))]
    simp

/-- When the continuation match backtracks into the whitespace run (the
emoji is blank) and the title core is long enough, the stripped title
group must begin with a word character: otherwise the greedy match
would have succeeded first or no candidate could match at all. -/
theorem contMatch_ws_head {l₀ : List Char} {e0 : Char} {t : List Char}
    (h : contMatch l₀ = some (e0, t)) (hws : pyIsSpace e0 = true)
    (hlen3 : 3 ≤ (pyStripL t).length) :
    ∃ c tl, pyStripL t = c :: tl ∧ pyIsWordChar c = true := by
  obtain ⟨hworde, hcase⟩ := contMatch_some h
  rcases hcase with ⟨rest, hdw, hti⟩ | ⟨_, ⟨tail2, hti2, hstrip2⟩, hfail⟩
  · rw [dropWhile_head_false hdw] at hws
    cases hws
  · obtain ⟨_, hnl_t, hstript, _, _⟩ := titleMatch_some hti2
    have hchain0 : pyStripL t = pyStripL l₀ := by rw [hstript, hstrip2]
    cases hcore : l₀.dropWhile pyIsSpace with
    | nil =>
      have h0 : pyStripL l₀ = [] := by
        unfold pyStripL
        rw [hcore]
        rfl
      rw [hchain0, h0] at hlen3
      simp at hlen3
    | cons c rest2 =>
      have hcws : pyIsSpace c = false := dropWhile_head_false hcore
      have hchain : pyStripL t = c :: dropTrailWhile pyIsSpace rest2 := by
        rw [hchain0]
        unfold pyStripL
        rw [hcore]
        exact dropTrail_cons_of_ne rest2 hcws
      simp only [hcore] at hfail
      by_cases hword : pyIsWordChar c = true
      · exact ⟨c, dropTrailWhile pyIsSpace rest2, hchain, hword⟩
      · have htnone : titleMatch rest2 = none := by
          rcases hfail with h1 | h1
          · exact absurd h1 hword
          · exact h1
        exfalso
        rcases titleMatch_none htnone with h1 | h1 | ⟨h1, h2⟩
        · have hall : ∀ d ∈ rest2, pyIsSpace d = true := by
            intro d hd
            rw [← List.takeWhile_append_dropWhile pyIsSpace rest2] at hd
            rcases List.mem_append.mp hd with hd | hd
            · exact List.mem_takeWhile_imp hd
            · exact (dropTrail_eq_nil_iff.mp h1) d hd
          have hdt0 : dropTrailWhile pyIsSpace rest2 = [] := dropTrail_eq_nil_iff.mpr hall
          rw [hchain, hdt0] at hlen3
          simp at hlen3
        · have hmem : '\n' ∈ pyStripL rest2 := charContains_iff.mp h1
          have hne : pyStripL rest2 ≠ [] := by
            intro h0
            rw [h0] at hmem
            cases hmem
          have hdt : dropTrailWhile pyIsSpace rest2 =
              rest2.takeWhile pyIsSpace ++ pyStripL rest2 := by
            conv_lhs => rw [← List.takeWhile_append_dropWhile pyIsSpace rest2]
            exact dropTrail_append_right _ hne
          have hmem2 : '\n' ∈ pyStripL t := by
            rw [hchain, hdt]
            exact List.mem_cons_of_mem _ (List.mem_append.mpr (Or.inr hmem))
          exact not_mem_of_contains_false hnl_t ((pyStripL_sublist t).subset hmem2)
        · have hne : pyStripL rest2 ≠ [] := by
            intro h0
            rw [h0] at h1
            cases h1
          have hdt : dropTrailWhile pyIsSpace rest2 =
              rest2.takeWhile pyIsSpace ++ pyStripL rest2 := by
            conv_lhs => rw [← List.takeWhile_append_dropWhile pyIsSpace rest2]
            exact dropTrail_append_right _ hne
          rcases h2 with h2 | h2
          · rw [hchain, hdt, h2, List.nil_append] at hlen3
            simp only [List.length_cons, h1] at hlen3
            omega
          · have hmem : '\n' ∈ rest2.takeWhile pyIsSpace := by
              obtain ⟨hx, hceq⟩ := List.mem_getLast?_eq_getLast
                (show '\n' ∈ (rest2.takeWhile pyIsSpace).getLast? from h2)
              exact hceq ▸ List.getLast_mem hx
            have hmem2 : '\n' ∈ pyStripL t := by
              rw [hchain, hdt]
              exact List.mem_cons_of_mem _ (List.mem_append.mpr (Or.inl hmem))
            exact not_mem_of_contains_false hnl_t ((pyStripL_sublist t).subset hmem2)

/-- C5 (amended): the round-trip holds for every successfully parsed
title whose `freq` group contains no opening parenthesis and whose text
neither begins with a pictographic-range glyph nor has
invisible-formatting characters at its edges: reconstructing
`combined = freq + "(" + id + ")" + ticket_emoji + text` and re-parsing
it with `validate_ticket_name` succeeds and returns the same parts. -/
theorem c5_roundtrip_amended (s : String) (p : TitleParts)
    (hp : validate_ticket_name (some s) = (true, some p))
    (hfreq : p.freq.data.contains '(' = false)
    (hlead : inEmojiRanges (p.text.data.headD ' ') = false)
    (hinv1 : inInvisibleSet (p.text.data.headD ' ') = false)
    (hinv2 : inInvisibleSet (p.text.data.getLastD ' ') = false) :
    validate_ticket_name (some (build_combined p)) = (true, some p) := by
  simp only [validate_ticket_name] at hp
  cases hre : reMatch s.data with
  | none =>
    rw [hre] at hp
    simp at hp
  | some q =>
    obtain ⟨F, idg, e0, tg⟩ := q
    rw [hre] at hp
    cases hpr : postProcessTitle e0 tg with
    | mk em T =>
      simp only [hpr] at hp
      by_cases hlt : T.length < 3
      · rw [if_pos hlt] at hp
        simp at hp
      · rw [if_neg hlt] at hp
        simp only [Prod.mk.injEq, Option.some.injEq, true_and] at hp
        subst hp
        -- decompose the successful scan of the original content
        have hscan : ∃ c0 rest0, s.data.dropWhile pyIsSpace = c0 :: rest0 ∧
            scanTitle [c0] rest0 = some (F, idg, e0, tg) := by
          unfold reMatch at hre
          cases hdw0 : s.data.dropWhile pyIsSpace with
          | nil => rw [hdw0] at hre; cases hre
          | cons c0 rest0 =>
            rw [hdw0] at hre
            exact ⟨c0, rest0, rfl, hre⟩
        obtain ⟨c0, rest0, hdw0, hsc⟩ := hscan
        obtain ⟨hFne, hFws, aw, hawid, hidg, hcm⟩ := scanTitle_sound
          (by intro h0; cases h0)
          (by
            intro d hd
            rcases List.mem_cons.mp hd with hd | hd
            · rw [hd]; exact dropWhile_head_false hdw0
            · simp at hd) hsc
        obtain ⟨lc, d1, d2, d3, d4, d5, d6, r, haw, hu, hd1, hd2, hd3, hd4, hd5, hd6⟩ :=
          idCheck_shape hawid
        subst haw
        have hidg2 : idg = ['(', lc, d1, d2, '-', d3, d4, '-', d5, d6, ')'] := hidg
        subst hidg2
        have hcmr : contMatch r = some (e0, tg) := hcm
        have hworde : pyIsWordChar e0 = false := (contMatch_some hcmr).1
        -- facts about the post-processed parts
        have hfacts := postProcessTitle_facts e0 tg
        rw [hpr] at hfacts
        obtain ⟨⟨L, hem, hLr⟩, hsub0, hstar0, hhead0, hlast0⟩ := hfacts
        subst hem
        have hsub : List.Sublist T (pyStripL tg) := hsub0
        have hstar : T.contains '*' = false := hstar0
        have hhead : ∀ c, T.head? = some c → pyIsSpace c = false := hhead0
        have hlast : ∀ c, T.getLast? = some c → pyIsSpace c = false := hlast0
        have hTne : T ≠ [] := by
          intro h0
          rw [h0] at hlt
          simp at hlt
        have htgnl : tg.contains '\n' = false := by
          obtain ⟨-, hc⟩ := contMatch_some hcmr
          rcases hc with ⟨r2, -, hti⟩ | ⟨-, ⟨t2, hti, -⟩, -⟩ <;> exact (titleMatch_some hti).2.1
        have hTnl : T.contains '\n' = false := by
          apply charContains_false
          intro hm
          exact not_mem_of_contains_false htgnl
            ((pyStripL_sublist tg).subset (hsub.subset hm))
        have theadR : ∀ c, T.head? = some c → inEmojiRanges c = false := by
          intro c hc
          cases T with
          | nil => cases hc
          | cons a tl =>
            simp only [List.head?_cons, Option.some.injEq] at hc
            subst hc
            exact hlead
        have theadI : ∀ c, T.head? = some c → inInvisibleSet c = false := by
          intro c hc
          cases T with
          | nil => cases hc
          | cons a tl =>
            simp only [List.head?_cons, Option.some.injEq] at hc
            subst hc
            exact hinv1
        have tlastI : ∀ c, T.getLast? = some c → inInvisibleSet c = false := by
          intro c hc
          have h1 : T.getLastD ' ' = c := by
            rw [List.getLastD_eq_getLast?, hc]
            rfl
          rw [← h1]
          exact hinv2
        -- the continuation re-matches on the rebuilt tail
        have hcm2 : contMatch (e0 :: (L ++ T)) = some (e0, L ++ T) := by
          cases h0 : pyIsSpace e0 with
          | false =>
            exact contMatch_caseA h0 hworde hLr hhead hlast hTnl (by omega)
          | true =>
            have hlen3 : 3 ≤ (pyStripL tg).length :=
              le_trans (by omega) hsub.length_le
            obtain ⟨c, tl, hst, hword⟩ := contMatch_ws_head hcmr h0 hlen3
            have hwh := @postProcessTitle_word_head e0 tg c
              (by rw [hst]; rfl) hword (by rw [hpr]; exact hTne)
            rw [hpr] at hwh
            obtain ⟨hem1, hThead⟩ := hwh
            have hL0 : L = [] := by
              simp only [List.cons.injEq, true_and] at hem1
              exact hem1
            subst hL0
            rw [List.nil_append]
            apply contMatch_caseB h0
            · intro c2 hc2
              rw [hThead] at hc2
              cases hc2
              exact hword
            · exact hlast
            · exact hTnl
            · omega
        -- forward: the rebuilt string
        have hfreq2 : '(' ∉ F := not_mem_of_contains_false hfreq
        have hsp : stripParens ['(', lc, d1, d2, '-', d3, d4, '-', d5, d6, ')'] =
            [lc, d1, d2, '-', d3, d4, '-', d5, d6] := stripParens_id hu hd6
        have hparenL : ("(" : String).data = ['('] := rfl
        have hparenR : (")" : String).data = [')'] := rfl
        have hid_ne : (String.mk (stripParens ['(', lc, d1, d2, '-', d3, d4, '-', d5, d6, ')'])) ≠ "" := by
          rw [hsp]
          intro h0
          have h1 := congrArg String.data h0
          simp at h1
        have hcd : (build_combined
            ⟨String.mk F, String.mk (stripParens ['(', lc, d1, d2, '-', d3, d4, '-', d5, d6, ')']),
              String.mk (e0 :: L), String.mk T⟩).data
            = F ++ (('(' :: lc :: d1 :: d2 :: '-' :: d3 :: d4 :: '-' :: d5 :: d6 :: ')' :: []) ++
                (e0 :: (L ++ T))) := by
          unfold build_combined
          rw [if_pos hid_ne, hsp]
          simp [String.data_append, hparenL, hparenR]
        have hfw : reMatch ((build_combined
            ⟨String.mk F, String.mk (stripParens ['(', lc, d1, d2, '-', d3, d4, '-', d5, d6, ')']),
              String.mk (e0 :: L), String.mk T⟩).data)
            = some (F, ['(', lc, d1, d2, '-', d3, d4, '-', d5, d6, ')'], e0, L ++ T) := by
          rw [hcd]
          cases hF : F with
          | nil => exact absurd hF hFne
          | cons cF F2 =>
            have hcFws : pyIsSpace cF = false := hFws cF (by rw [hF]; simp)
            have hdwself : ((cF :: F2) ++
                (('(' :: lc :: d1 :: d2 :: '-' :: d3 :: d4 :: '-' :: d5 :: d6 :: ')' :: []) ++
                  (e0 :: (L ++ T)))).dropWhile pyIsSpace
                = (cF :: F2) ++
                  (('(' :: lc :: d1 :: d2 :: '-' :: d3 :: d4 :: '-' :: d5 :: d6 :: ')' :: []) ++
                    (e0 :: (L ++ T))) := by
              apply dropWhile_eq_self_of_head
              intro d hd
              simp only [List.cons_append, List.head?_cons, Option.some.injEq] at hd
              subst hd
              exact hcFws
            unfold reMatch
            rw [List.cons_append, List.cons_append] at hdwself ⊢
            rw [hdwself]
            have hidX : idCheck
                (('(' :: lc :: d1 :: d2 :: '-' :: d3 :: d4 :: '-' :: d5 :: d6 :: ')' :: []) ++
                  (e0 :: (L ++ T))) = true := by
              show (isAsciiUpper lc && isAsciiDigit d1 && isAsciiDigit d2 &&
                isAsciiDigit d3 && isAsciiDigit d4 && isAsciiDigit d5 && isAsciiDigit d6) = true
              rw [hu, hd1, hd2, hd3, hd4, hd5, hd6]
              rfl
            have hrun := @scanTitle_run F2
              (('(' :: lc :: d1 :: d2 :: '-' :: d3 :: d4 :: '-' :: d5 :: d6 :: ')' :: []) ++
                (e0 :: (L ++ T)))
              e0 (L ++ T) [cF]
              (by intro d hd; exact hFws d (by rw [hF]; simp [hd]))
              (by intro hm; exact hfreq2 (by rw [hF]; simp [hm]))
              hidX
              (by exact hcm2)
            exact hrun
        simp only [validate_ticket_name, hfw]
        have hnoop : postProcessTitle e0 (L ++ T) = (e0 :: L, T) :=
          postProcessTitle_noop hLr hTne hhead hlast hTnl hstar theadR theadI tlastI
        simp only [hnoop]
        rw [if_neg hlt]

/-- Witness for the amended C5: the parts parsed from
`"f (A00-00-00)! abc"` satisfy the provisos and round-trip through
`build_combined` to the same parts. -/
theorem c5_roundtrip_amended_witness :
    validate_ticket_name (some "f (A00-00-00)! abc") =
      (true, some ⟨"f", "A00-00-00", "!", "abc"⟩) ∧
    validate_ticket_name (some (build_combined ⟨"f", "A00-00-00", "!", "abc"⟩)) =
      (true, some ⟨"f", "A00-00-00", "!", "abc"⟩) :=
  ⟨by decide,
    c5_roundtrip_amended "f (A00-00-00)! abc" ⟨"f", "A00-00-00", "!", "abc"⟩
      (by decide) (by decide) (by decide) (by decide) (by decide)⟩
